import Mathlib

/-!
# PowerConsumptionLog

A shallow embedding of `src/PowerConsumptionLog.cpp`: two 16-slot circular
buffers (raw sample window `m_window`, smoothed history `m_data`), their write
cursors, and the four operations `measure`, `appendCurrentMeasurement`,
`isOverload` and `report`, together with the constructor.

Platform parameters: `sz` is `sizeof(unsigned int)` in bytes, so an
`unsigned int` holds the values `0 .. 256 ^ sz - 1` (2 on AVR, 4 on ARM);
`ct` is the type of the two position counters, which wrap at `ct.range`.
-/

namespace PowerLog

/-- Number of values of the machine type `unsigned int` when it occupies `sz` bytes. -/
def uintRange (sz : Nat) : Nat := 256 ^ sz

/-- Modelled from the spec: the declared type of the two position counters is in the class
declaration (`PowerConsumptionLog.h`), which is not among the sources; the specification
calls them unsigned counters.  The type is an unsigned integer type of `bits` bits; every
C++ integer type has at least 8 bits. -/
structure CounterType where
  bits : Nat
  wide : 8 ≤ bits

/-- Number of values of a counter, the modulus at which `++` wraps. -/
def CounterType.range (ct : CounterType) : Nat := 2 ^ ct.bits

/-- A 16-bit counter (`unsigned int` on AVR). -/
def uint16 : CounterType := ⟨16, by decide⟩

/-- A 32-bit counter (`unsigned int` on ARM). -/
def uint32 : CounterType := ⟨32, by decide⟩

/-- Modelled from the spec: the class declaration (`PowerConsumptionLog.h`) is not among the
sources, so the member types are taken from the specification.  The members are the ones the
`.cpp` file uses.  `m_data` and `m_window` are arrays of 16 unsigned integers, of the type
`unsigned int` of the values the source stores in them (`milliAmps`, `avg/10`).  The two
position members are unsigned counters of a fixed width (see `CounterType`); the natural
number held is the value of the counter. -/
structure PowerConsumptionLog where
  m_data : Fin 16 → Nat
  m_window : Fin 16 → Nat
  m_pos : Nat
  m_windowPos : Nat
  m_overloadThreshold : Nat

/-- The expression `(pos - i) & 0xF`: the low four bits of the two's-complement difference,
which is the difference reduced modulo 16 also when `pos < i`. -/
def slot (pos i : Nat) : Fin 16 :=
  ⟨(((pos : Int) - (i : Int)) % 16).toNat, by
    have h1 : (0 : Int) ≤ ((pos : Int) - (i : Int)) % 16 := Int.emod_nonneg _ (by decide)
    have h2 : ((pos : Int) - (i : Int)) % 16 < 16 := Int.emod_lt_of_pos _ (by decide)
    omega⟩

/-- The call `memset(&buf[0], 0, n)` on an array of 16 elements of `sz` bytes each: the first
`n` bytes of the storage become zero.  An element lying wholly inside the cleared range
becomes 0, one wholly outside keeps its value, and one straddling the end of the range
loses its low-order bytes (little-endian layout). -/
def memsetZero (sz : Nat) (buf : Fin 16 → Nat) (n : Nat) : Fin 16 → Nat :=
  fun i =>
    if sz * (i.val + 1) ≤ n then 0
    else if n ≤ sz * i.val then buf i
    else buf i / 256 ^ (n - sz * i.val) * 256 ^ (n - sz * i.val)

/-- The constructor `PowerConsumptionLog::PowerConsumptionLog()`, run over storage whose
previous content is `raw`: the member initialisers set the two counters and the threshold,
and each `memset(..., 0, 16)` clears the first 16 bytes of its array. -/
def construct (sz : Nat) (raw : PowerConsumptionLog) : PowerConsumptionLog :=
  { m_pos := 0
    m_windowPos := 0
    m_overloadThreshold := 5000
    m_data := memsetZero sz raw.m_data 16
    m_window := memsetZero sz raw.m_window 16 }

/-- The method `measure`: `m_window[m_windowPos++ & 0xF] = milliAmps`.  The increment is
that of the counter's type and wraps at `ct.range`. -/
def measure (ct : CounterType) (s : PowerConsumptionLog) (milliAmps : Nat) :
    PowerConsumptionLog :=
  { s with
    m_window := Function.update s.m_window (slot s.m_windowPos 0) milliAmps
    m_windowPos := (s.m_windowPos + 1) % ct.range }

/-- The loop of `appendCurrentMeasurement`: `avg += m_window[(m_windowPos-i) & 0xF]` for the
given values of `i`, in `unsigned int` arithmetic (wrapping at `256 ^ sz`). -/
def accumulate (sz : Nat) (s : PowerConsumptionLog) (avg : Nat) : List Nat → Nat
  | [] => avg
  | i :: rest => accumulate sz s ((avg + s.m_window (slot s.m_windowPos i)) % uintRange sz) rest

/-- The method `appendCurrentMeasurement`: sums the window at offsets 1..10 into the
`unsigned int avg` and stores `avg/10` at `m_data[m_pos++ & 0xF]`.  The increment is that
of the counter's type and wraps at `ct.range`. -/
def appendCurrentMeasurement (sz : Nat) (ct : CounterType) (s : PowerConsumptionLog) :
    PowerConsumptionLog :=
  let avg := accumulate sz s 0 (List.range' 1 10)
  { s with
    m_data := Function.update s.m_data (slot s.m_pos 0) (avg / 10)
    m_pos := (s.m_pos + 1) % ct.range }

/-- The loop of `isOverload`: returns `false` at the first offset whose history entry is below
the threshold, `true` when the offsets are exhausted. -/
def isOverloadLoop (s : PowerConsumptionLog) (threshold : Nat) : List Nat → Bool
  | [] => true
  | i :: rest =>
    if s.m_data (slot s.m_pos i) < threshold then false
    else isOverloadLoop s threshold rest

/-- The method `isOverload`: the loop over offsets 1..3. -/
def isOverload (s : PowerConsumptionLog) (threshold : Nat) : Bool :=
  isOverloadLoop s threshold (List.range' 1 3)

/-- The conversion `String(unsigned int)`: the decimal rendering, as a list of characters. -/
def decimal (v : Nat) : List Char := Nat.toDigits 10 v

/-- The loop of `report`: `message += String(m_data[(m_pos-i) & 0xF]) + ","`. -/
def reportLoop (s : PowerConsumptionLog) (message : List Char) : List Nat → List Char
  | [] => message
  | i :: rest => reportLoop s (message ++ (decimal (s.m_data (slot s.m_pos i)) ++ [','])) rest

/-- The method `report`: the text handed to `serial.print`, which is the accumulated message
without its last character (`message.substring(0, message.length()-1)`). -/
def report (s : PowerConsumptionLog) : List Char :=
  let message := reportLoop s "POWER,".toList (List.range' 1 10)
  message.take (message.length - 1)

/-- The calls a client can make on the object. -/
inductive Call where
  | measure (milliAmps : Nat)
  | appendCurrentMeasurement
  | isOverload (threshold : Nat)
  | report
  deriving DecidableEq, Repr

/-- What a call hands back to the caller. -/
inductive Output where
  | none
  | bool (b : Bool)
  | line (text : List Char)
  deriving DecidableEq, Repr

/-- One call on the object: the value handed back and the state afterwards.  The two queries
contain no assignment to a member, so the state they leave is the one they found. -/
def step (sz : Nat) (ct : CounterType) (s : PowerConsumptionLog) :
    Call → Output × PowerConsumptionLog
  | .measure milliAmps => (.none, measure ct s milliAmps)
  | .appendCurrentMeasurement => (.none, appendCurrentMeasurement sz ct s)
  | .isOverload threshold => (.bool (isOverload s threshold), s)
  | .report => (.line (report s), s)

/-- The state after a sequence of calls, first call first. -/
def run (sz : Nat) (ct : CounterType) (s : PowerConsumptionLog) :
    List Call → PowerConsumptionLog
  | [] => s
  | c :: rest => run sz ct (step sz ct s c).2 rest

/-- The state after feeding the samples to `measure`, oldest first. -/
def measureAll (ct : CounterType) (s : PowerConsumptionLog) :
    List Nat → PowerConsumptionLog
  | [] => s
  | x :: rest => measureAll ct (measure ct s x) rest

/-- Storage in which every byte of both arrays is zero (static storage duration). -/
def zeroStorage : PowerConsumptionLog :=
  { m_data := fun _ => 0, m_window := fun _ => 0, m_pos := 0, m_windowPos := 0,
    m_overloadThreshold := 0 }

/-- Storage in which every element of both arrays has all bits set, for `sz`-byte elements. -/
def onesStorage (sz : Nat) : PowerConsumptionLog :=
  { m_data := fun _ => uintRange sz - 1, m_window := fun _ => uintRange sz - 1,
    m_pos := uintRange sz - 1, m_windowPos := uintRange sz - 1,
    m_overloadThreshold := uintRange sz - 1 }

/-- The line the specification describes for `report`: the ten most recent history entries
ordered from offset 10 (first) to offset 1 (last). -/
def reportSpecLine (s : PowerConsumptionLog) : List Char :=
  "POWER,".toList ++ List.intercalate [',']
    (List.map (fun i => decimal (s.m_data (slot s.m_pos i))) [10, 9, 8, 7, 6, 5, 4, 3, 2, 1])

/-- Ten rounds of `measure(10)` followed by `appendCurrentMeasurement()`. -/
def tenCommits : List Call :=
  (List.replicate 10 [Call.measure 10, Call.appendCurrentMeasurement]).flatten

/-- The state used to compare the two orders of the report line: ten commits storing
1, 2, ..., 10 in that order, on a platform with 2-byte `unsigned int`. -/
def afterTenCommits : PowerConsumptionLog :=
  run 2 uint16 (construct 2 zeroStorage) tenCommits

/-- Ten samples of 5000 mA followed by three commits: the history ends 5000, 5000, 5000. -/
def threeAtThreshold : PowerConsumptionLog :=
  run 2 uint16 (construct 2 zeroStorage)
    (List.replicate 10 (Call.measure 5000) ++ List.replicate 3 Call.appendCurrentMeasurement)

/-- The same, then with one sample of 4990 mA and a fourth commit: the history ends
5000, 5000, 4999. -/
def lastBelowThreshold : PowerConsumptionLog :=
  run 2 uint16 threeAtThreshold [Call.measure 4990, Call.appendCurrentMeasurement]

/-- Ten samples of 7000 mA fed to a fresh log on a platform with 2-byte `unsigned int`. -/
def tenSamplesOf7000 : PowerConsumptionLog :=
  measureAll uint16 (construct 2 zeroStorage) (List.replicate 10 7000)

/-- Ten samples of 429496730 mA fed to a fresh log on a platform with 4-byte `unsigned int`. -/
def tenSamplesWide : PowerConsumptionLog :=
  measureAll uint32 (construct 4 zeroStorage) (List.replicate 10 429496730)

/-- Seventeen distinct samples, 101 (oldest) to 117 (newest). -/
def seventeenSamples : List Nat :=
  [101, 102, 103, 104, 105, 106, 107, 108, 109, 110, 111, 112, 113, 114, 115, 116, 117]

/-- Number of `appendCurrentMeasurement` calls in a sequence of calls. -/
def commits : List Call → Nat
  | [] => 0
  | Call.appendCurrentMeasurement :: rest => commits rest + 1
  | _ :: rest => commits rest

/-- Ten samples of 6000 mA followed by two commits. -/
def twoCommits : List Call :=
  List.replicate 10 (Call.measure 6000) ++ List.replicate 2 Call.appendCurrentMeasurement

/-- The true (unbounded) sum of the ten window entries at offsets 1..10. -/
def windowSum (s : PowerConsumptionLog) : Nat :=
  ((List.range' 1 10).map fun i => s.m_window (slot s.m_windowPos i)).sum

/-- The outputs of a sequence of calls, first call first. -/
def trace (sz : Nat) (ct : CounterType) (s : PowerConsumptionLog) :
    List Call → List Output
  | [] => []
  | c :: rest => (step sz ct s c).1 :: trace sz ct (step sz ct s c).2 rest

/-- The value `avg/10` that `appendCurrentMeasurement` stores when called in state `s`. -/
def commitValue (sz : Nat) (s : PowerConsumptionLog) : Nat :=
  accumulate sz s 0 (List.range' 1 10) / 10

/-- The values stored by the `appendCurrentMeasurement` calls of a sequence of calls, in
the order of the calls. -/
def commitValues (sz : Nat) (ct : CounterType) (s : PowerConsumptionLog) :
    List Call → List Nat
  | [] => []
  | Call.appendCurrentMeasurement :: rest =>
    commitValue sz s :: commitValues sz ct (appendCurrentMeasurement sz ct s) rest
  | c :: rest => commitValues sz ct (step sz ct s c).2 rest

/-- The ten window entries read by `appendCurrentMeasurement`, offset 1 first. -/
def windowSamples (s : PowerConsumptionLog) : List Nat :=
  (List.range' 1 10).map fun i => s.m_window (slot s.m_windowPos i)

/-- Two states with equal buffers whose position counters agree modulo 16. -/
def Congruent (s t : PowerConsumptionLog) : Prop :=
  s.m_data = t.m_data ∧ s.m_window = t.m_window ∧
    s.m_pos % 16 = t.m_pos % 16 ∧ s.m_windowPos % 16 = t.m_windowPos % 16

/-- The state with both position counters reduced to `w` bits. -/
def wrapCounters (w : Nat) (s : PowerConsumptionLog) : PowerConsumptionLog :=
  { s with m_pos := s.m_pos % 2 ^ w, m_windowPos := s.m_windowPos % 2 ^ w }

/-- One call on an object whose position counters are moreover reduced to `w` bits after
the call. -/
def stepWrapped (sz : Nat) (ct : CounterType) (w : Nat) (s : PowerConsumptionLog) (c : Call) :
    Output × PowerConsumptionLog :=
  ((step sz ct s c).1, wrapCounters w (step sz ct s c).2)

/-- The outputs of a sequence of calls on an object whose counters are reduced to `w` bits
after every call. -/
def traceWrapped (sz : Nat) (ct : CounterType) (w : Nat) (s : PowerConsumptionLog) :
    List Call → List Output
  | [] => []
  | c :: rest =>
    (stepWrapped sz ct w s c).1 :: traceWrapped sz ct w (stepWrapped sz ct w s c).2 rest

/-- Seventeen rounds of `measure(10)` followed by `appendCurrentMeasurement()`. -/
def seventeenCommits : List Call :=
  (List.replicate 17 [Call.measure 10, Call.appendCurrentMeasurement]).flatten

/-- Storage in which every element of both arrays holds 1000 (left over from earlier use). -/
def staleStorage : PowerConsumptionLog :=
  { m_data := fun _ => 1000, m_window := fun _ => 1000, m_pos := 1000, m_windowPos := 1000,
    m_overloadThreshold := 1000 }

/-- A state whose counters have run past 16: the fresh state over zeroed storage with
`m_pos = 16` and `m_windowPos = 65536`. -/
def farCounters : PowerConsumptionLog :=
  { construct 2 zeroStorage with m_pos := 16, m_windowPos := 65536 }

/-- Ten samples of 4000 mA fed to a fresh log. -/
def tenSamplesOf4000 : PowerConsumptionLog :=
  measureAll uint16 (construct 2 zeroStorage) (List.replicate 10 4000)

/-- Ten samples of 5000 mA fed to a fresh log. -/
def tenSamplesOf5000 : PowerConsumptionLog :=
  measureAll uint16 (construct 2 zeroStorage) (List.replicate 10 5000)

/-- Calls other than commits: one further sample of 5000 mA and one query. -/
def sampleAndQuery : List Call :=
  [Call.measure 5000, Call.isOverload 1]

/-- Ten samples 5000, 5100, ..., 5900 fed to a fresh log. -/
def tenRisingSamples : PowerConsumptionLog :=
  measureAll uint16 (construct 2 zeroStorage)
    [5000, 5100, 5200, 5300, 5400, 5500, 5600, 5700, 5800, 5900]

/-- The object as it lies in memory: each array is a sequence of elements, and an element
can be read or written only at an index below the length of the array. -/
structure RawLog where
  m_data : List Nat
  m_window : List Nat
  m_pos : Nat
  m_windowPos : Nat
  m_overloadThreshold : Nat

/-- The array read `buf[i]`, defined only for an index inside the array. -/
def readAt (buf : List Nat) (i : Nat) : Option Nat := buf[i]?

/-- The array write `buf[i] = v`, defined only for an index inside the array. -/
def writeAt (buf : List Nat) (i v : Nat) : Option (List Nat) :=
  if i < buf.length then some (buf.set i v) else none

/-- The machine computation `(pos - i) & 0xF` on a counter of type `ct`: the offset is
converted to the counter's type, the subtraction wraps at `ct.range`, and the difference is
masked with `0xF`. -/
def maskedIndex (ct : CounterType) (pos i : Nat) : Nat :=
  ((pos + (ct.range - i % ct.range)) % ct.range) &&& 0xF

/-- The method `measure` on the memory image: the write goes to index `m_windowPos & 0xF`
and fails outside the array. -/
def measureChecked (ct : CounterType) (s : RawLog) (milliAmps : Nat) : Option RawLog :=
  match writeAt s.m_window (s.m_windowPos &&& 0xF) milliAmps with
  | none => none
  | some w => some { s with m_window := w, m_windowPos := (s.m_windowPos + 1) % ct.range }

/-- The loop of `appendCurrentMeasurement` on the memory image: every read fails outside
the array. -/
def accumulateChecked (sz : Nat) (ct : CounterType) (s : RawLog) (avg : Nat) :
    List Nat → Option Nat
  | [] => some avg
  | i :: rest =>
    match readAt s.m_window (maskedIndex ct s.m_windowPos i) with
    | none => none
    | some v => accumulateChecked sz ct s ((avg + v) % uintRange sz) rest

/-- The method `appendCurrentMeasurement` on the memory image. -/
def appendCurrentMeasurementChecked (sz : Nat) (ct : CounterType) (s : RawLog) :
    Option RawLog :=
  match accumulateChecked sz ct s 0 (List.range' 1 10) with
  | none => none
  | some avg =>
    match writeAt s.m_data (s.m_pos &&& 0xF) (avg / 10) with
    | none => none
    | some d => some { s with m_data := d, m_pos := (s.m_pos + 1) % ct.range }

/-- The loop of `isOverload` on the memory image. -/
def isOverloadLoopChecked (ct : CounterType) (s : RawLog) (threshold : Nat) :
    List Nat → Option Bool
  | [] => some true
  | i :: rest =>
    match readAt s.m_data (maskedIndex ct s.m_pos i) with
    | none => none
    | some v => if v < threshold then some false else isOverloadLoopChecked ct s threshold rest

/-- The method `isOverload` on the memory image. -/
def isOverloadChecked (ct : CounterType) (s : RawLog) (threshold : Nat) : Option Bool :=
  isOverloadLoopChecked ct s threshold (List.range' 1 3)

/-- The loop of `report` on the memory image. -/
def reportLoopChecked (ct : CounterType) (s : RawLog) (message : List Char) :
    List Nat → Option (List Char)
  | [] => some message
  | i :: rest =>
    match readAt s.m_data (maskedIndex ct s.m_pos i) with
    | none => none
    | some v => reportLoopChecked ct s (message ++ (decimal v ++ [','])) rest

/-- The method `report` on the memory image. -/
def reportChecked (ct : CounterType) (s : RawLog) : Option (List Char) :=
  match reportLoopChecked ct s "POWER,".toList (List.range' 1 10) with
  | none => none
  | some message => some (message.take (message.length - 1))

/-- The state that a memory image with 16-element arrays stands for. -/
def RawLog.toLog (s : RawLog) : PowerConsumptionLog :=
  { m_data := fun j => s.m_data.getD j.val 0
    m_window := fun j => s.m_window.getD j.val 0
    m_pos := s.m_pos
    m_windowPos := s.m_windowPos
    m_overloadThreshold := s.m_overloadThreshold }

/-- A memory image with 16-element arrays and both counters at 0, as at start-up. -/
def rawStartup : RawLog :=
  { m_data := [1, 2, 3, 4, 5, 6, 7, 8, 9, 10, 11, 12, 13, 14, 15, 16]
    m_window := [21, 22, 23, 24, 25, 26, 27, 28, 29, 30, 31, 32, 33, 34, 35, 36]
    m_pos := 0, m_windowPos := 0, m_overloadThreshold := 5000 }

/-- The state reached from a fresh log by 65535 calls of `measure`, with 16-bit counters. -/
def topOfRange : PowerConsumptionLog :=
  measureAll uint16 (construct 2 zeroStorage) (List.replicate 65535 0)

/-! ## Index arithmetic -/

theorem slot_val (pos i : Nat) : (slot pos i).val = (((pos : Int) - (i : Int)) % 16).toNat := rfl

theorem slot_zero_val (pos : Nat) : (slot pos 0).val = pos % 16 := by
  rw [slot_val]; omega

theorem slot_succ_succ (pos i : Nat) : slot (pos + 1) (i + 1) = slot pos i := by
  apply Fin.ext; rw [slot_val, slot_val]; omega

theorem slot_ne_of_lt (pos i j : Nat) (hij : i < j) (hj : j < i + 16) :
    slot pos i ≠ slot pos j := by
  intro h
  have h2 := congrArg Fin.val h
  rw [slot_val, slot_val] at h2
  omega

/-- The slot depends on the counter only modulo 16. -/
theorem slot_congr (p q i : Nat) (h : p % 16 = q % 16) : slot p i = slot q i := by
  apply Fin.ext; rw [slot_val, slot_val]; omega

/-- A value reduced to `w ≥ 4` bits addresses the same slots as the value itself. -/
theorem slot_wrap (w : Nat) (hw : 4 ≤ w) (p i : Nat) : slot (p % 2 ^ w) i = slot p i := by
  apply slot_congr
  obtain ⟨v, rfl⟩ : ∃ v, w = 4 + v := ⟨w - 4, by omega⟩
  have h16 : (2 : Nat) ^ (4 + v) = 16 * 2 ^ v := by rw [Nat.pow_add]
  rw [h16]
  exact Nat.mod_mul_right_mod p 16 (2 ^ v)

theorem range_eq_mul (ct : CounterType) : ∃ m, ct.range = 16 * m := by
  have h := ct.wide
  obtain ⟨v, hv⟩ : ∃ v, ct.bits = 4 + v := ⟨ct.bits - 4, by omega⟩
  exact ⟨2 ^ v, by rw [CounterType.range, hv, Nat.pow_add]⟩

theorem range_pos (ct : CounterType) : 0 < ct.range :=
  Nat.pow_pos (by decide)

/-- Reducing a number modulo the counter range does not change it modulo 16. -/
theorem mod_range_mod (ct : CounterType) (n : Nat) : n % ct.range % 16 = n % 16 := by
  obtain ⟨m, hm⟩ := range_eq_mul ct
  rw [hm]
  exact Nat.mod_mul_right_mod n 16 m

/-- A wrapped counter addresses the same slots as the unwrapped value. -/
theorem slot_range (ct : CounterType) (p i : Nat) : slot (p % ct.range) i = slot p i :=
  slot_congr _ _ i (mod_range_mod ct p)

/-- After the increment of a counter, offset `i + 1` is the slot that was at offset `i`. -/
theorem slot_step (ct : CounterType) (p i : Nat) :
    slot ((p + 1) % ct.range) (i + 1) = slot p i := by
  rw [slot_range, slot_succ_succ]

/-! ## The report line -/

theorem reportLoop_eq (s : PowerConsumptionLog) (l : List Nat) (message : List Char) :
    reportLoop s message l
      = message ++ (l.map fun i => decimal (s.m_data (slot s.m_pos i)) ++ [',']).flatten := by
  induction l generalizing message with
  | nil => simp [reportLoop]
  | cons i rest ih => simp [reportLoop, ih]

theorem take_length_pred_concat (l : List Char) (c : Char) :
    (l ++ [c]).take ((l ++ [c]).length - 1) = l := by
  simp

/-- The accumulated message of `report` is the printed line followed by one comma. -/
theorem report_message_eq (s : PowerConsumptionLog) :
    reportLoop s "POWER,".toList (List.range' 1 10)
      = ("POWER,".toList ++ List.intercalate [',']
          (List.map (fun i => decimal (s.m_data (slot s.m_pos i)))
            [1, 2, 3, 4, 5, 6, 7, 8, 9, 10])) ++ [','] := by
  rw [reportLoop_eq]
  simp [List.range', List.intercalate, List.intersperse, List.flatten]

theorem report_eq (s : PowerConsumptionLog) :
    report s = "POWER,".toList ++ List.intercalate [',']
      (List.map (fun i => decimal (s.m_data (slot s.m_pos i)))
        [1, 2, 3, 4, 5, 6, 7, 8, 9, 10]) := by
  unfold report
  simp only [report_message_eq]
  exact take_length_pred_concat _ _

/-! ## Decimal rendering -/

theorem digitChar_isDigit (m : Nat) (h : m < 10) : (Nat.digitChar m).isDigit = true := by
  interval_cases m <;> rfl

theorem toDigitsCore_isDigit (fuel : Nat) :
    ∀ (n : Nat) (ds : List Char), (∀ c ∈ ds, c.isDigit = true) →
      ∀ c ∈ Nat.toDigitsCore 10 fuel n ds, c.isDigit = true := by
  induction fuel with
  | zero => intro n ds hds c hc; exact hds c (by simpa [Nat.toDigitsCore] using hc)
  | succ fuel ih =>
    intro n ds hds c hc
    have hcons : ∀ c ∈ Nat.digitChar (n % 10) :: ds, c.isDigit = true := by
      intro c hc
      rcases List.mem_cons.1 hc with h | h
      · rw [h]; exact digitChar_isDigit _ (Nat.mod_lt _ (by decide))
      · exact hds c h
    simp only [Nat.toDigitsCore] at hc
    split at hc
    · exact hcons c hc
    · exact ih _ _ hcons c hc

theorem toDigitsCore_ne_nil (fuel : Nat) :
    ∀ (n : Nat) (ds : List Char), ds ≠ [] → Nat.toDigitsCore 10 fuel n ds ≠ [] := by
  induction fuel with
  | zero => intro n ds hds; simpa [Nat.toDigitsCore] using hds
  | succ fuel ih =>
    intro n ds _
    simp only [Nat.toDigitsCore]
    split
    · simp
    · exact ih _ _ (by simp)

theorem decimal_isDigit (v : Nat) : ∀ c ∈ decimal v, c.isDigit = true :=
  toDigitsCore_isDigit (v + 1) v [] (by simp)

theorem decimal_ne_nil (v : Nat) : decimal v ≠ [] := by
  unfold decimal Nat.toDigits
  simp only [Nat.toDigitsCore]
  split
  · simp
  · exact toDigitsCore_ne_nil _ _ _ (by simp)

/-! ## The averaging loop -/

theorem accumulate_mod (sz : Nat) (s : PowerConsumptionLog) (l : List Nat) (avg : Nat) :
    accumulate sz s (avg % uintRange sz) l
      = (avg + (l.map fun i => s.m_window (slot s.m_windowPos i)).sum) % uintRange sz := by
  induction l generalizing avg with
  | nil => simp [accumulate]
  | cons i rest ih =>
    simp only [accumulate, List.map_cons, List.sum_cons]
    rw [ih, Nat.add_assoc, Nat.mod_add_mod]

theorem accumulate_eq (sz : Nat) (s : PowerConsumptionLog) :
    accumulate sz s 0 (List.range' 1 10) = windowSum s % uintRange sz := by
  have h := accumulate_mod sz s (List.range' 1 10) 0
  rw [Nat.zero_mod, Nat.zero_add] at h
  exact h

theorem appendCurrentMeasurement_data (sz : Nat) (ct : CounterType) (s : PowerConsumptionLog) :
    (appendCurrentMeasurement sz ct s).m_data
      = Function.update s.m_data (slot s.m_pos 0) (windowSum s % uintRange sz / 10) := by
  simp only [appendCurrentMeasurement, accumulate_eq]

theorem appendCurrentMeasurement_pos (sz : Nat) (ct : CounterType) (s : PowerConsumptionLog) :
    (appendCurrentMeasurement sz ct s).m_pos = (s.m_pos + 1) % ct.range := rfl

theorem appendCurrentMeasurement_window (sz : Nat) (ct : CounterType) (s : PowerConsumptionLog) :
    (appendCurrentMeasurement sz ct s).m_window = s.m_window := rfl

theorem appendCurrentMeasurement_windowPos (sz : Nat) (ct : CounterType) (s : PowerConsumptionLog) :
    (appendCurrentMeasurement sz ct s).m_windowPos = s.m_windowPos := rfl

/-- Without overflow of the accumulator the stored value is the truncated mean. -/
theorem appendCurrentMeasurement_newest (sz : Nat) (ct : CounterType) (s : PowerConsumptionLog)
    (hfit : windowSum s < uintRange sz) :
    (appendCurrentMeasurement sz ct s).m_data (slot (appendCurrentMeasurement sz ct s).m_pos 1)
      = windowSum s / 10 := by
  rw [appendCurrentMeasurement_data, appendCurrentMeasurement_pos, slot_step,
    Function.update_same, Nat.mod_eq_of_lt hfit]

/-! ## Feeding samples -/

theorem measureAll_append (ct : CounterType) (s : PowerConsumptionLog) (l : List Nat) (x : Nat) :
    measureAll ct s (l ++ [x]) = measure ct (measureAll ct s l) x := by
  induction l generalizing s with
  | nil => rfl
  | cons y rest ih => exact ih (measure ct s y)

theorem measure_windowPos (ct : CounterType) (s : PowerConsumptionLog) (x : Nat) :
    (measure ct s x).m_windowPos = (s.m_windowPos + 1) % ct.range := rfl

theorem measure_window (ct : CounterType) (s : PowerConsumptionLog) (x : Nat) :
    (measure ct s x).m_window = Function.update s.m_window (slot s.m_windowPos 0) x := rfl

/-- The window counter after feeding samples: the number of samples fed, wrapped. -/
theorem measureAll_windowPos (ct : CounterType) (s : PowerConsumptionLog) (l : List Nat)
    (hs : s.m_windowPos < ct.range) :
    (measureAll ct s l).m_windowPos = (s.m_windowPos + l.length) % ct.range := by
  induction l generalizing s with
  | nil => exact (Nat.mod_eq_of_lt hs).symm
  | cons y rest ih =>
    have h := ih (measure ct s y) (by rw [measure_windowPos]; exact Nat.mod_lt _ (range_pos ct))
    simp only [measureAll, h, measure_windowPos, List.length_cons, Nat.mod_add_mod]
    congr 1
    omega

theorem measureAll_data (ct : CounterType) (s : PowerConsumptionLog) (l : List Nat) :
    (measureAll ct s l).m_data = s.m_data ∧ (measureAll ct s l).m_pos = s.m_pos := by
  induction l generalizing s with
  | nil => exact ⟨rfl, rfl⟩
  | cons y rest ih => simpa only [measureAll] using ih (measure ct s y)

/-- After feeding `l`, the slot at offset `k` holds the `k`-th most recent sample. -/
theorem measureAll_recent (ct : CounterType) (s : PowerConsumptionLog) (l : List Nat) (k : Nat)
    (hk1 : 1 ≤ k) (hk : k ≤ min l.length 16) :
    l[l.length - k]?
      = some ((measureAll ct s l).m_window (slot (measureAll ct s l).m_windowPos k)) := by
  induction l using List.reverseRecOn generalizing k with
  | nil => simp at hk; omega
  | append_singleton l x ih =>
    rw [measureAll_append]
    rw [measure_windowPos, measure_window]
    simp only [List.length_append, List.length_singleton] at hk ⊢
    obtain ⟨j, rfl⟩ : ∃ j, k = j + 1 := ⟨k - 1, by omega⟩
    rw [slot_step]
    rcases Nat.eq_zero_or_pos j with hj | hj
    · subst hj
      simp
    · have hne : slot (measureAll ct s l).m_windowPos j
          ≠ slot (measureAll ct s l).m_windowPos 0 :=
        (slot_ne_of_lt _ 0 j hj (by omega)).symm
      rw [Function.update_noteq hne, ← ih j hj (by omega)]
      have h1 : l.length + 1 - (j + 1) = l.length - j := by omega
      rw [h1, List.getElem?_append_left (by omega)]

theorem length_ten_cases (t : List Nat) (h : t.length = 10) :
    ∃ a0 a1 a2 a3 a4 a5 a6 a7 a8 a9, t = [a0, a1, a2, a3, a4, a5, a6, a7, a8, a9] := by
  match t, h with
  | [a0, a1, a2, a3, a4, a5, a6, a7, a8, a9], _ => exact ⟨a0, a1, a2, a3, a4, a5, a6, a7, a8, a9, rfl⟩

/-- After at least ten samples the window sum is the sum of the last ten samples fed. -/
theorem windowSum_measureAll (ct : CounterType) (s : PowerConsumptionLog) (l : List Nat)
    (h : 10 ≤ l.length) :
    windowSum (measureAll ct s l) = (l.drop (l.length - 10)).sum := by
  have hlen : (l.drop (l.length - 10)).length = 10 := by simp; omega
  have key : ∀ i, 1 ≤ i → i ≤ 10 → (l.drop (l.length - 10))[10 - i]?
      = some ((measureAll ct s l).m_window (slot (measureAll ct s l).m_windowPos i)) := by
    intro i h1 h2
    rw [← measureAll_recent ct s l i h1 (by simp; omega), List.getElem?_drop]
    congr 1; omega
  obtain ⟨a0, a1, a2, a3, a4, a5, a6, a7, a8, a9, ht⟩ := length_ten_cases _ hlen
  rw [ht] at key ⊢
  have k1 := key 1 (by omega) (by omega)
  have k2 := key 2 (by omega) (by omega)
  have k3 := key 3 (by omega) (by omega)
  have k4 := key 4 (by omega) (by omega)
  have k5 := key 5 (by omega) (by omega)
  have k6 := key 6 (by omega) (by omega)
  have k7 := key 7 (by omega) (by omega)
  have k8 := key 8 (by omega) (by omega)
  have k9 := key 9 (by omega) (by omega)
  have k10 := key 10 (by omega) (by omega)
  simp only [Nat.reduceSub, List.getElem?_cons_succ, List.getElem?_cons_zero,
    Option.some.injEq] at k1 k2 k3 k4 k5 k6 k7 k8 k9 k10
  simp only [windowSum, List.range', List.map_cons, List.map_nil, List.sum_cons, List.sum_nil,
    ← k1, ← k2, ← k3, ← k4, ← k5, ← k6, ← k7, ← k8, ← k9, ← k10]
  omega

/-! ## The overload test -/

theorem isOverload_iff (s : PowerConsumptionLog) (threshold : Nat) :
    isOverload s threshold = true ↔
      threshold ≤ s.m_data (slot s.m_pos 1) ∧ threshold ≤ s.m_data (slot s.m_pos 2) ∧
        threshold ≤ s.m_data (slot s.m_pos 3) := by
  simp only [isOverload, List.range', isOverloadLoop, Nat.reduceAdd]
  split_ifs <;> simp <;> omega

/-! ## Construction -/

theorem memsetZero_inside (sz : Nat) (buf : Fin 16 → Nat) (n : Nat) (i : Fin 16)
    (h : sz * (i.val + 1) ≤ n) : memsetZero sz buf n i = 0 := by
  simp [memsetZero, h]

theorem memsetZero_outside (sz : Nat) (buf : Fin 16 → Nat) (n : Nat) (i : Fin 16)
    (hsz : 0 < sz) (h : n ≤ sz * i.val) : memsetZero sz buf n i = buf i := by
  have h2 : ¬ sz * (i.val + 1) ≤ n := by
    rw [Nat.mul_add, Nat.mul_one]; omega
  simp [memsetZero, h, h2]

theorem memsetZero_of_zero (sz : Nat) (n : Nat) (i : Fin 16) :
    memsetZero sz (fun _ => 0) n i = 0 := by
  simp [memsetZero]

/-- Over zeroed storage the constructed object has both arrays zero. -/
theorem construct_zeroStorage (sz : Nat) (i : Fin 16) :
    (construct sz zeroStorage).m_data i = 0 ∧ (construct sz zeroStorage).m_window i = 0 :=
  ⟨memsetZero_of_zero sz 16 i, memsetZero_of_zero sz 16 i⟩

/-! ## Start-up behaviour of the overload test -/

theorem commits_cons (c : Call) (rest : List Call) :
    commits (c :: rest) = commits [c] + commits rest := by
  cases c <;> simp [commits]
  omega

theorem step_history_zero (sz : Nat) (ct : CounterType) (s : PowerConsumptionLog) (c : Call)
    (n : Nat) (hpos : s.m_pos % 16 = n % 16)
    (hz : ∀ j : Fin 16, n ≤ j.val → s.m_data j = 0) (hn : n + commits [c] ≤ 16) :
    (step sz ct s c).2.m_pos % 16 = (n + commits [c]) % 16 ∧
      ∀ j : Fin 16, n + commits [c] ≤ j.val → (step sz ct s c).2.m_data j = 0 := by
  cases c with
  | measure x => exact ⟨hpos, hz⟩
  | isOverload T => exact ⟨hpos, hz⟩
  | report => exact ⟨hpos, hz⟩
  | appendCurrentMeasurement =>
    have hc : commits [Call.appendCurrentMeasurement] = 1 := rfl
    rw [hc] at hn ⊢
    have hp : (step sz ct s Call.appendCurrentMeasurement).2.m_pos
        = (s.m_pos + 1) % ct.range := rfl
    have hdata : (step sz ct s Call.appendCurrentMeasurement).2.m_data
        = Function.update s.m_data (slot s.m_pos 0) (windowSum s % uintRange sz / 10) :=
      appendCurrentMeasurement_data sz ct s
    refine ⟨?_, ?_⟩
    · rw [hp, mod_range_mod]; omega
    · intro j hj
      have hne : j ≠ slot s.m_pos 0 := by
        intro h
        have h2 := congrArg Fin.val h
        rw [slot_zero_val] at h2
        omega
      rw [hdata, Function.update_noteq hne]
      exact hz j (by omega)

theorem run_history_zero (sz : Nat) (ct : CounterType) (calls : List Call)
    (s : PowerConsumptionLog) (n : Nat) (hpos : s.m_pos % 16 = n % 16)
    (hz : ∀ j : Fin 16, n ≤ j.val → s.m_data j = 0) (hn : n + commits calls ≤ 16) :
    (run sz ct s calls).m_pos % 16 = (n + commits calls) % 16 ∧
      ∀ j : Fin 16, n + commits calls ≤ j.val → (run sz ct s calls).m_data j = 0 := by
  induction calls generalizing s n with
  | nil => exact ⟨hpos, hz⟩
  | cons c rest ih =>
    rw [commits_cons c rest] at hn ⊢
    have hs := step_history_zero sz ct s c n hpos hz (by omega)
    have hr := ih (step sz ct s c).2 (n + commits [c]) hs.1 hs.2 (by omega)
    simp only [run]
    rw [Nat.add_assoc] at hr
    exact hr

/-- When the history array of the fresh object is all zero (as it is over zeroed storage),
fewer than three commits leave `isOverload` false for every positive threshold. -/
theorem isOverload_startup_of_zero_history (sz : Nat) (ct : CounterType) (raw : PowerConsumptionLog)
    (hraw : ∀ j : Fin 16, (construct sz raw).m_data j = 0)
    (calls : List Call) (hc : commits calls < 3) (T : Nat) (hT : 0 < T) :
    isOverload (run sz ct (construct sz raw) calls) T = false := by
  have h := run_history_zero sz ct calls (construct sz raw) 0 rfl (fun j _ => hraw j)
    (by omega)
  have hpos : (run sz ct (construct sz raw) calls).m_pos % 16 = commits calls := by
    rw [h.1]; omega
  have hz := h.2 (slot (run sz ct (construct sz raw) calls).m_pos 3) (by
    rw [slot_val]; omega)
  rw [Bool.eq_false_iff]
  intro ht
  have h3 := ((isOverload_iff _ T).1 ht).2.2
  omega

/-! ## Shape of the report line -/

theorem report_ends_with_field (s : PowerConsumptionLog) :
    report s = reportLoop s "POWER,".toList (List.range' 1 9)
      ++ decimal (s.m_data (slot s.m_pos 10)) := by
  have h : reportLoop s "POWER,".toList (List.range' 1 10)
      = (reportLoop s "POWER,".toList (List.range' 1 9)
          ++ decimal (s.m_data (slot s.m_pos 10))) ++ [','] := by
    simp [reportLoop_eq, List.range']
  unfold report
  simp only [h]
  exact take_length_pred_concat _ _

theorem report_chars (s : PowerConsumptionLog) (c : Char) (hc : c ∈ report s) :
    c ∈ "POWER,".toList ∨ c.isDigit = true := by
  have hmsg : c ∈ reportLoop s "POWER,".toList (List.range' 1 10) :=
    List.mem_of_mem_take hc
  rw [reportLoop_eq] at hmsg
  rcases List.mem_append.1 hmsg with h | h
  · exact Or.inl h
  · obtain ⟨l, hl, hcl⟩ := List.mem_flatten.1 h
    obtain ⟨i, -, rfl⟩ := List.mem_map.1 hl
    rcases List.mem_append.1 hcl with h1 | h1
    · exact Or.inr (decimal_isDigit _ c h1)
    · left
      rw [List.mem_singleton.1 h1]
      decide

theorem report_last_isDigit (s : PowerConsumptionLog) :
    ∃ c, (report s).getLast? = some c ∧ c.isDigit = true := by
  have hne := decimal_ne_nil (s.m_data (slot s.m_pos 10))
  refine ⟨(decimal (s.m_data (slot s.m_pos 10))).getLast hne, ?_,
    decimal_isDigit _ _ (List.getLast_mem hne)⟩
  rw [report_ends_with_field, List.getLast?_append, List.getLast?_eq_getLast _ hne]
  rfl

/-! ## Sequences of calls -/

theorem run_append (sz : Nat) (ct : CounterType) (a b : List Call) (s : PowerConsumptionLog) :
    run sz ct s (a ++ b) = run sz ct (run sz ct s a) b := by
  induction a generalizing s with
  | nil => rfl
  | cons c rest ih => exact ih (step sz ct s c).2

theorem commits_append (a b : List Call) : commits (a ++ b) = commits a + commits b := by
  induction a with
  | nil => simp [commits]
  | cons c rest ih =>
    rw [List.cons_append, commits_cons c (rest ++ b), commits_cons c rest, ih]
    omega

theorem commitValues_cons_commit (sz : Nat) (ct : CounterType) (s : PowerConsumptionLog)
    (rest : List Call) :
    commitValues sz ct s (Call.appendCurrentMeasurement :: rest)
      = commitValue sz s :: commitValues sz ct (appendCurrentMeasurement sz ct s) rest := rfl

theorem commitValues_append (sz : Nat) (ct : CounterType) (a b : List Call)
    (s : PowerConsumptionLog) :
    commitValues sz ct s (a ++ b) = commitValues sz ct s a ++ commitValues sz ct (run sz ct s a) b := by
  induction a generalizing s with
  | nil => rfl
  | cons c rest ih =>
    cases c with
    | appendCurrentMeasurement =>
      simp only [List.cons_append, commitValues_cons_commit, ih, List.cons_append, run, step]
    | measure x => exact ih _
    | isOverload T => exact ih _
    | report => exact ih _

theorem commitValues_length (sz : Nat) (ct : CounterType) (l : List Call)
    (s : PowerConsumptionLog) :
    (commitValues sz ct s l).length = commits l := by
  induction l generalizing s with
  | nil => rfl
  | cons c rest ih =>
    cases c with
    | appendCurrentMeasurement =>
      simp only [commitValues_cons_commit, List.length_cons, ih, commits]
    | measure x => exact ih _
    | isOverload T => exact ih _
    | report => exact ih _

/-- The history counter after a sequence of calls, modulo 16: the number of commits. -/
theorem run_pos (sz : Nat) (ct : CounterType) (l : List Call) (s : PowerConsumptionLog) :
    (run sz ct s l).m_pos % 16 = (s.m_pos + commits l) % 16 := by
  induction l generalizing s with
  | nil => rfl
  | cons c rest ih =>
    rw [commits_cons c rest]
    cases c with
    | appendCurrentMeasurement =>
      have h := mod_range_mod ct (s.m_pos + 1)
      simp only [run, step, ih, appendCurrentMeasurement_pos, commits]
      omega
    | measure x =>
      have h : (measure ct s x).m_pos = s.m_pos := rfl
      simp only [run, step, ih, commits, h]
      omega
    | isOverload T => simp only [run, step, ih, commits]; omega
    | report => simp only [run, step, ih, commits]; omega

theorem appendCurrentMeasurement_data_eq (sz : Nat) (ct : CounterType) (s : PowerConsumptionLog) :
    (appendCurrentMeasurement sz ct s).m_data
      = Function.update s.m_data (slot s.m_pos 0) (commitValue sz s) := rfl

/-- After any sequence of calls, the history slot at offset `k` holds the value stored by
the `k`-th most recent commit of the sequence. -/
theorem run_history_recent (sz : Nat) (ct : CounterType) (s : PowerConsumptionLog)
    (cs : List Call) (k : Nat)
    (hk1 : 1 ≤ k) (hk : k ≤ min (commits cs) 16) :
    (commitValues sz ct s cs)[commits cs - k]?
      = some ((run sz ct s cs).m_data (slot (run sz ct s cs).m_pos k)) := by
  induction cs using List.reverseRecOn generalizing k with
  | nil => simp [commits] at hk; omega
  | append_singleton l c ih =>
    rw [run_append, commitValues_append, commits_append] at *
    cases c with
    | appendCurrentMeasurement =>
      have hlen := commitValues_length sz ct l s
      simp only [commits, run, step, commitValues, appendCurrentMeasurement_pos,
        appendCurrentMeasurement_data_eq, Nat.zero_add] at hk ⊢
      obtain ⟨j, rfl⟩ : ∃ j, k = j + 1 := ⟨k - 1, by omega⟩
      rw [slot_step]
      rcases Nat.eq_zero_or_pos j with hj | hj
      · subst hj
        rw [Function.update_same, List.getElem?_append_right (by omega)]
        simp [hlen]
      · have hne : slot (run sz ct s l).m_pos j ≠ slot (run sz ct s l).m_pos 0 :=
          (slot_ne_of_lt _ 0 j hj (by omega)).symm
        rw [Function.update_noteq hne, ← ih j hj (by omega)]
        have h1 : commits l + 1 - (j + 1) = commits l - j := by omega
        rw [h1, List.getElem?_append_left (by omega)]
    | measure x =>
      simpa [commits, run, step, commitValues, measure] using ih k hk1 (by simpa [commits] using hk)
    | isOverload T =>
      simpa [commits, run, step, commitValues] using ih k hk1 (by simpa [commits] using hk)
    | report =>
      simpa [commits, run, step, commitValues] using ih k hk1 (by simpa [commits] using hk)

theorem commitValues_eq_nil (sz : Nat) (ct : CounterType) (s : PowerConsumptionLog) (l : List Call)
    (h : commits l = 0) : commitValues sz ct s l = [] :=
  List.eq_nil_of_length_eq_zero (by rw [commitValues_length, h])

/-- If one of the three most recent commits stored a value below the threshold, the
overload test is false. -/
theorem isOverload_false_of_recent_below (sz : Nat) (ct : CounterType) (s : PowerConsumptionLog)
    (cs : List Call)
    (T k v : Nat) (hk1 : 1 ≤ k) (hk3 : k ≤ 3) (hkn : k ≤ commits cs)
    (hv : (commitValues sz ct s cs)[commits cs - k]? = some v) (hlt : v < T) :
    isOverload (run sz ct s cs) T = false := by
  have h := run_history_recent sz ct s cs k hk1 (by simp only [Nat.le_min]; omega)
  rw [hv] at h
  have hval := Option.some.inj h
  rw [Bool.eq_false_iff]
  intro ht
  obtain ⟨h1, h2, h3⟩ := (isOverload_iff _ T).1 ht
  obtain rfl | rfl | rfl : k = 1 ∨ k = 2 ∨ k = 3 := by omega
  · omega
  · omega
  · omega

/-- If the three most recent commits all stored values at or above the threshold, the
overload test is true. -/
theorem isOverload_true_of_recent (sz : Nat) (ct : CounterType) (s : PowerConsumptionLog)
    (cs : List Call)
    (T v1 v2 v3 : Nat) (hn : 3 ≤ commits cs)
    (h1 : (commitValues sz ct s cs)[commits cs - 1]? = some v1)
    (h2 : (commitValues sz ct s cs)[commits cs - 2]? = some v2)
    (h3 : (commitValues sz ct s cs)[commits cs - 3]? = some v3)
    (ht1 : T ≤ v1) (ht2 : T ≤ v2) (ht3 : T ≤ v3) :
    isOverload (run sz ct s cs) T = true := by
  have e1 := run_history_recent sz ct s cs 1 (by omega) (by simp only [Nat.le_min]; omega)
  have e2 := run_history_recent sz ct s cs 2 (by omega) (by simp only [Nat.le_min]; omega)
  have e3 := run_history_recent sz ct s cs 3 (by omega) (by simp only [Nat.le_min]; omega)
  rw [h1] at e1; rw [h2] at e2; rw [h3] at e3
  have q1 := Option.some.inj e1
  have q2 := Option.some.inj e2
  have q3 := Option.some.inj e3
  rw [isOverload_iff]
  omega

/-! ## Fewer than ten samples -/

/-- Slots not yet reached by the fed samples keep the content they had before. -/
theorem measureAll_older (ct : CounterType) (s : PowerConsumptionLog) (l : List Nat) (i : Nat)
    (h1 : l.length < i) (h2 : i ≤ 16) :
    (measureAll ct s l).m_window (slot (measureAll ct s l).m_windowPos i)
      = s.m_window (slot s.m_windowPos (i - l.length)) := by
  induction l using List.reverseRecOn generalizing i with
  | nil => rfl
  | append_singleton l x ih =>
    rw [measureAll_append]
    rw [measure_windowPos, measure_window]
    simp only [List.length_append, List.length_singleton] at h1 ⊢
    obtain ⟨j, rfl⟩ : ∃ j, i = j + 1 := ⟨i - 1, by omega⟩
    have hne : slot (measureAll ct s l).m_windowPos j
        ≠ slot (measureAll ct s l).m_windowPos 0 :=
      (slot_ne_of_lt _ 0 j (by omega) (by omega)).symm
    rw [slot_step, Function.update_noteq hne, ih j (by omega) (by omega)]
    congr 2
    omega

/-- The window sum is the sum of any ten-element list that lists the window entries at
offsets 10, 9, ..., 1. -/
theorem windowSum_of_entries (s : PowerConsumptionLog) (t : List Nat) (hlen : t.length = 10)
    (key : ∀ i, 1 ≤ i → i ≤ 10 → t[10 - i]? = some (s.m_window (slot s.m_windowPos i))) :
    windowSum s = t.sum := by
  obtain ⟨a0, a1, a2, a3, a4, a5, a6, a7, a8, a9, ht⟩ := length_ten_cases _ hlen
  rw [ht] at key ⊢
  have k1 := key 1 (by omega) (by omega)
  have k2 := key 2 (by omega) (by omega)
  have k3 := key 3 (by omega) (by omega)
  have k4 := key 4 (by omega) (by omega)
  have k5 := key 5 (by omega) (by omega)
  have k6 := key 6 (by omega) (by omega)
  have k7 := key 7 (by omega) (by omega)
  have k8 := key 8 (by omega) (by omega)
  have k9 := key 9 (by omega) (by omega)
  have k10 := key 10 (by omega) (by omega)
  simp only [Nat.reduceSub, List.getElem?_cons_succ, List.getElem?_cons_zero,
    Option.some.injEq] at k1 k2 k3 k4 k5 k6 k7 k8 k9 k10
  simp only [windowSum, List.range', List.map_cons, List.map_nil, List.sum_cons, List.sum_nil,
    ← k1, ← k2, ← k3, ← k4, ← k5, ← k6, ← k7, ← k8, ← k9, ← k10]
  omega

/-- Fed into an all-zero window, fewer than ten samples give a window sum equal to their
own sum. -/
theorem windowSum_measureAll_short (ct : CounterType) (s : PowerConsumptionLog) (l : List Nat)
    (hz : ∀ j : Fin 16, s.m_window j = 0) (hlen : l.length < 10) :
    windowSum (measureAll ct s l) = l.sum := by
  have hsum : (List.replicate (10 - l.length) 0 ++ l).sum = l.sum := by
    simp [List.sum_append, List.sum_replicate]
  rw [← hsum]
  apply windowSum_of_entries
  · simp; omega
  · intro i hi1 hi10
    rcases Nat.lt_or_ge l.length i with h | h
    · rw [measureAll_older ct s l i h (by omega), hz,
        List.getElem?_append_left (by simp; omega), List.getElem?_replicate]
      simp; omega
    · rw [← measureAll_recent ct s l i hi1 (by simp only [Nat.le_min]; omega),
        List.getElem?_append_right (by simp; omega)]
      congr 1
      simp; omega

/-- When the fresh window is all zero (as it is over zeroed storage), fewer than ten
samples whose sum fits are averaged as if the missing samples were 0. -/
theorem append_after_few_samples_of_zero_window (sz : Nat) (ct : CounterType)
    (raw : PowerConsumptionLog)
    (hraw : ∀ j : Fin 16, (construct sz raw).m_window j = 0)
    (samples : List Nat) (hlen : samples.length < 10) (hfit : samples.sum < uintRange sz) :
    (appendCurrentMeasurement sz ct (measureAll ct (construct sz raw) samples)).m_data
        (slot (appendCurrentMeasurement sz ct (measureAll ct (construct sz raw) samples)).m_pos 1)
      = samples.sum / 10 := by
  rw [← windowSum_measureAll_short ct (construct sz raw) samples hraw hlen] at hfit ⊢
  exact appendCurrentMeasurement_newest sz ct _ hfit

/-! ## Counters modulo 16 -/

theorem congruent_symm {s t : PowerConsumptionLog} (h : Congruent s t) : Congruent t s :=
  ⟨h.1.symm, h.2.1.symm, h.2.2.1.symm, h.2.2.2.symm⟩

theorem congruent_trans {s t u : PowerConsumptionLog} (h1 : Congruent s t)
    (h2 : Congruent t u) : Congruent s u :=
  ⟨h1.1.trans h2.1, h1.2.1.trans h2.2.1, h1.2.2.1.trans h2.2.2.1, h1.2.2.2.trans h2.2.2.2⟩

theorem congruent_data_slot {s t : PowerConsumptionLog} (h : Congruent s t) (i : Nat) :
    s.m_data (slot s.m_pos i) = t.m_data (slot t.m_pos i) := by
  rw [h.1, slot_congr _ _ i h.2.2.1]

theorem congruent_window_slot {s t : PowerConsumptionLog} (h : Congruent s t) (i : Nat) :
    s.m_window (slot s.m_windowPos i) = t.m_window (slot t.m_windowPos i) := by
  rw [h.2.1, slot_congr _ _ i h.2.2.2]

theorem congruent_isOverload {s t : PowerConsumptionLog} (h : Congruent s t) (T : Nat) :
    isOverload s T = isOverload t T := by
  have hl : ∀ l : List Nat, isOverloadLoop s T l = isOverloadLoop t T l := by
    intro l
    induction l with
    | nil => rfl
    | cons i rest ih => simp only [isOverloadLoop, congruent_data_slot h i, ih]
  exact hl _

theorem congruent_report {s t : PowerConsumptionLog} (h : Congruent s t) :
    report s = report t := by
  have hl : ∀ (l : List Nat) (m : List Char), reportLoop s m l = reportLoop t m l := by
    intro l
    induction l with
    | nil => intro m; rfl
    | cons i rest ih => intro m; simp only [reportLoop, congruent_data_slot h i, ih]
  simp only [report, hl]

theorem congruent_commitValue {s t : PowerConsumptionLog} (h : Congruent s t) (sz : Nat) :
    commitValue sz s = commitValue sz t := by
  have hl : ∀ (l : List Nat) (a : Nat), accumulate sz s a l = accumulate sz t a l := by
    intro l
    induction l with
    | nil => intro a; rfl
    | cons i rest ih => intro a; simp only [accumulate, congruent_window_slot h i, ih]
  simp only [commitValue, hl]

theorem congruent_measure {s t : PowerConsumptionLog} (ct ct2 : CounterType)
    (h : Congruent s t) (x : Nat) : Congruent (measure ct s x) (measure ct2 t x) := by
  refine ⟨h.1, ?_, h.2.2.1, ?_⟩
  · show Function.update s.m_window (slot s.m_windowPos 0) x
      = Function.update t.m_window (slot t.m_windowPos 0) x
    rw [h.2.1, slot_congr _ _ 0 h.2.2.2]
  · show (s.m_windowPos + 1) % ct.range % 16 = (t.m_windowPos + 1) % ct2.range % 16
    have := h.2.2.2
    rw [mod_range_mod, mod_range_mod]
    omega

theorem congruent_append {s t : PowerConsumptionLog} (ct ct2 : CounterType)
    (h : Congruent s t) (sz : Nat) :
    Congruent (appendCurrentMeasurement sz ct s) (appendCurrentMeasurement sz ct2 t) := by
  refine ⟨?_, h.2.1, ?_, h.2.2.2⟩
  · rw [appendCurrentMeasurement_data_eq, appendCurrentMeasurement_data_eq, h.1,
      slot_congr _ _ 0 h.2.2.1, congruent_commitValue h sz]
  · show (s.m_pos + 1) % ct.range % 16 = (t.m_pos + 1) % ct2.range % 16
    have := h.2.2.1
    rw [mod_range_mod, mod_range_mod]
    omega

theorem congruent_step {s t : PowerConsumptionLog} (ct ct2 : CounterType)
    (h : Congruent s t) (sz : Nat) (c : Call) :
    (step sz ct s c).1 = (step sz ct2 t c).1 ∧
      Congruent (step sz ct s c).2 (step sz ct2 t c).2 := by
  cases c with
  | measure x => exact ⟨rfl, congruent_measure ct ct2 h x⟩
  | appendCurrentMeasurement => exact ⟨rfl, congruent_append ct ct2 h sz⟩
  | isOverload T => exact ⟨by simp only [PowerLog.step, congruent_isOverload h T], h⟩
  | report => exact ⟨by simp only [PowerLog.step, congruent_report h], h⟩

theorem wrapCounters_congruent (w : Nat) (hw : 4 ≤ w) (s : PowerConsumptionLog) :
    Congruent (wrapCounters w s) s := by
  obtain ⟨v, rfl⟩ : ∃ v, w = 4 + v := ⟨w - 4, by omega⟩
  have h16 : (2 : Nat) ^ (4 + v) = 16 * 2 ^ v := by rw [Nat.pow_add]
  refine ⟨rfl, rfl, ?_, ?_⟩
  · show s.m_pos % 2 ^ (4 + v) % 16 = s.m_pos % 16
    rw [h16]; exact Nat.mod_mul_right_mod _ 16 _
  · show s.m_windowPos % 2 ^ (4 + v) % 16 = s.m_windowPos % 16
    rw [h16]; exact Nat.mod_mul_right_mod _ 16 _

/-- From congruent states, objects with counters of any two widths produce the same
outputs. -/
theorem trace_congr (sz : Nat) (ct ct2 : CounterType) (cs : List Call)
    (s t : PowerConsumptionLog) (h : Congruent s t) :
    trace sz ct s cs = trace sz ct2 t cs := by
  induction cs generalizing s t with
  | nil => rfl
  | cons c rest ih =>
    have hs := congruent_step ct ct2 h sz c
    simp only [trace, hs.1]
    rw [ih _ _ hs.2]

/-- An object whose counters are moreover reduced to `w ≥ 4` bits after every call produces
the outputs of the object without that reduction, from congruent states. -/
theorem traceWrapped_eq (sz : Nat) (ct ct2 : CounterType) (w : Nat) (hw : 4 ≤ w)
    (cs : List Call) (s t : PowerConsumptionLog) (h : Congruent s t) :
    traceWrapped sz ct w s cs = trace sz ct2 t cs := by
  induction cs generalizing s t with
  | nil => rfl
  | cons c rest ih =>
    have hs := congruent_step ct ct2 h sz c
    simp only [traceWrapped, trace, stepWrapped, hs.1]
    rw [ih _ _ (congruent_trans (wrapCounters_congruent w hw _) hs.2)]

/-! ## Bounds on the stored mean -/

theorem windowSamples_length (s : PowerConsumptionLog) : (windowSamples s).length = 10 := by
  simp [windowSamples]

theorem windowSum_eq_sum (s : PowerConsumptionLog) : windowSum s = (windowSamples s).sum := rfl

theorem commitValue_eq (sz : Nat) (s : PowerConsumptionLog) :
    commitValue sz s = windowSum s % uintRange sz / 10 := by
  rw [commitValue, accumulate_eq]

theorem commitValue_of_fit (sz : Nat) (s : PowerConsumptionLog)
    (hfit : windowSum s < uintRange sz) : commitValue sz s = windowSum s / 10 := by
  rw [commitValue_eq, Nat.mod_eq_of_lt hfit]

theorem commitValue_ge (sz : Nat) (s : PowerConsumptionLog)
    (hfit : windowSum s < uintRange sz) (m : Nat) (hm : ∀ x ∈ windowSamples s, m ≤ x) :
    m ≤ commitValue sz s := by
  have h := List.card_nsmul_le_sum (windowSamples s) m hm
  rw [windowSamples_length, smul_eq_mul, ← windowSum_eq_sum] at h
  rw [commitValue_of_fit sz s hfit]
  omega

theorem commitValue_le (sz : Nat) (s : PowerConsumptionLog)
    (hfit : windowSum s < uintRange sz) (m : Nat) (hm : ∀ x ∈ windowSamples s, x ≤ m) :
    commitValue sz s ≤ m := by
  have h := List.sum_le_card_nsmul (windowSamples s) m hm
  rw [windowSamples_length, smul_eq_mul, ← windowSum_eq_sum] at h
  rw [commitValue_of_fit sz s hfit]
  omega

theorem commitValue_append (sz : Nat) (ct : CounterType) (s : PowerConsumptionLog) :
    commitValue sz (appendCurrentMeasurement sz ct s) = commitValue sz s := rfl

/-! ## The operations on the memory image -/

theorem and_fifteen (n : Nat) : n &&& 0xF = n % 16 :=
  Nat.and_pow_two_sub_one_eq_mod n 4

/-- The masked machine difference is the slot of the model. -/
theorem maskedIndex_eq_slot (ct : CounterType) (pos i : Nat) :
    maskedIndex ct pos i = (slot pos i).val := by
  obtain ⟨m, hm⟩ := range_eq_mul ct
  have hb := mod_range_mod ct i
  have hlt := Nat.mod_lt i (range_pos ct)
  rw [maskedIndex, and_fifteen, mod_range_mod, slot_val]
  omega

theorem maskedIndex_lt (ct : CounterType) (pos i : Nat) : maskedIndex ct pos i < 16 := by
  rw [maskedIndex_eq_slot]
  exact (slot pos i).isLt

theorem readAt_of_length (buf : List Nat) (h : buf.length = 16) (j : Fin 16) :
    readAt buf j.val = some (buf.getD j.val 0) := by
  have hj : j.val < buf.length := by rw [h]; exact j.isLt
  simp [readAt, List.getElem?_eq_getElem hj]

theorem readAt_maskedIndex (buf : List Nat) (h : buf.length = 16) (ct : CounterType)
    (pos i : Nat) : readAt buf (maskedIndex ct pos i) = some (buf.getD (slot pos i).val 0) := by
  rw [maskedIndex_eq_slot]
  exact readAt_of_length buf h (slot pos i)

theorem writeAt_of_length (buf : List Nat) (h : buf.length = 16) (pos v : Nat) :
    writeAt buf (pos &&& 0xF) v = some (buf.set (slot pos 0).val v) := by
  have hlt : pos % 16 < buf.length := by rw [h]; exact Nat.mod_lt _ (by decide)
  rw [writeAt, and_fifteen, slot_zero_val, if_pos hlt]

theorem getD_set_update (buf : List Nat) (h : buf.length = 16) (k : Fin 16) (v : Nat) :
    (fun j : Fin 16 => (buf.set k.val v).getD j.val 0)
      = Function.update (fun j : Fin 16 => buf.getD j.val 0) k v := by
  funext j
  have hk : k.val < buf.length := by rw [h]; exact k.isLt
  by_cases hjk : j = k
  · subst hjk
    simp [List.getElem?_set_self hk]
  · have hne : k.val ≠ j.val := fun e => hjk (Fin.ext e.symm)
    simp [Function.update_noteq hjk, List.getElem?_set_ne hne]

theorem accumulateChecked_eq (sz : Nat) (ct : CounterType) (s : RawLog)
    (hw : s.m_window.length = 16) (l : List Nat) (avg : Nat) :
    accumulateChecked sz ct s avg l = some (accumulate sz s.toLog avg l) := by
  induction l generalizing avg with
  | nil => rfl
  | cons i rest ih =>
    simp only [accumulateChecked, readAt_maskedIndex _ hw, ih]
    rfl

theorem isOverloadLoopChecked_eq (ct : CounterType) (s : RawLog)
    (hd : s.m_data.length = 16) (T : Nat) (l : List Nat) :
    isOverloadLoopChecked ct s T l = some (isOverloadLoop s.toLog T l) := by
  induction l with
  | nil => rfl
  | cons i rest ih =>
    simp only [isOverloadLoopChecked, readAt_maskedIndex _ hd, ih, isOverloadLoop]
    have hv : s.toLog.m_data (slot s.toLog.m_pos i) = s.m_data.getD (slot s.m_pos i).val 0 := rfl
    rw [hv]
    split <;> rfl

theorem reportLoopChecked_eq (ct : CounterType) (s : RawLog)
    (hd : s.m_data.length = 16) (l : List Nat) (message : List Char) :
    reportLoopChecked ct s message l = some (reportLoop s.toLog message l) := by
  induction l generalizing message with
  | nil => rfl
  | cons i rest ih =>
    simp only [reportLoopChecked, readAt_maskedIndex _ hd, ih]
    rfl

theorem measureChecked_eq (ct : CounterType) (s : RawLog) (hw : s.m_window.length = 16)
    (x : Nat) :
    ∃ s2, measureChecked ct s x = some s2 ∧ s2.m_data = s.m_data ∧
      s2.m_window.length = 16 ∧ s2.toLog = measure ct s.toLog x := by
  refine ⟨{ s with m_window := s.m_window.set (slot s.m_windowPos 0).val x,
                   m_windowPos := (s.m_windowPos + 1) % ct.range }, ?_, rfl, ?_, ?_⟩
  · simp only [measureChecked, writeAt_of_length _ hw]
  · simp [hw]
  · simp only [RawLog.toLog, measure, getD_set_update _ hw]

theorem appendCurrentMeasurementChecked_eq (sz : Nat) (ct : CounterType) (s : RawLog)
    (hd : s.m_data.length = 16) (hw : s.m_window.length = 16) :
    ∃ s2, appendCurrentMeasurementChecked sz ct s = some s2 ∧ s2.m_window = s.m_window ∧
      s2.m_data.length = 16 ∧ s2.toLog = appendCurrentMeasurement sz ct s.toLog := by
  refine ⟨{ s with m_data := s.m_data.set (slot s.m_pos 0).val
                     (accumulate sz s.toLog 0 (List.range' 1 10) / 10),
                   m_pos := (s.m_pos + 1) % ct.range }, ?_, rfl, ?_, ?_⟩
  · simp only [appendCurrentMeasurementChecked, accumulateChecked_eq sz ct s hw,
      writeAt_of_length _ hd]
  · simp [hd]
  · simp only [RawLog.toLog, appendCurrentMeasurement, getD_set_update _ hd]

theorem isOverloadChecked_eq (ct : CounterType) (s : RawLog) (hd : s.m_data.length = 16)
    (T : Nat) : isOverloadChecked ct s T = some (isOverload s.toLog T) :=
  isOverloadLoopChecked_eq ct s hd T _

theorem reportChecked_eq (ct : CounterType) (s : RawLog) (hd : s.m_data.length = 16) :
    reportChecked ct s = some (report s.toLog) := by
  simp only [reportChecked, reportLoopChecked_eq ct s hd, report]

/-! ## Claims -/

/-- Claim C1, as the specification states it, fails: after commits storing 1, 2, ..., 10 in
that order the printed line lists the newest entry first, whereas the specification's line
lists the oldest of the ten first. -/
theorem report_oldest_first_counterexample :
    String.mk (report afterTenCommits) = "POWER,10,9,8,7,6,5,4,3,2,1" ∧
      String.mk (reportSpecLine afterTenCommits) = "POWER,1,2,3,4,5,6,7,8,9,10" ∧
      report afterTenCommits ≠ reportSpecLine afterTenCommits := by
  decide!

/-- Claim C1, amended: for every state the line produced by `report` is the literal
`POWER,` followed by the decimal renderings of the ten most recent history entries, ordered
from the most recent (offset 1) first to the tenth-most-recent (offset 10) last, joined by
commas, with nothing after the last field. -/
theorem report_most_recent_first (s : PowerConsumptionLog) :
    report s = "POWER,".toList ++ List.intercalate [',']
      (List.map (fun i => decimal (s.m_data (slot s.m_pos i)))
        [1, 2, 3, 4, 5, 6, 7, 8, 9, 10]) :=
  report_eq s

/-- Claim C2: `isOverload(T)` is true exactly when the three history entries at slots
`(m_pos - 1) mod 16`, `(m_pos - 2) mod 16` and `(m_pos - 3) mod 16` are all at least `T`;
a history ending 5000, 5000, 5000 is an overload at `T = 5000`, and one ending
5000, 5000, 4999 is not. -/
theorem isOverload_iff_last_three :
    (∀ (s : PowerConsumptionLog) (T : Nat),
      isOverload s T = true ↔
        T ≤ s.m_data (slot s.m_pos 1) ∧ T ≤ s.m_data (slot s.m_pos 2) ∧
          T ≤ s.m_data (slot s.m_pos 3)) ∧
    (∀ (pos i : Nat), ((slot pos i).val : Int) = ((pos : Int) - (i : Int)) % 16) ∧
    ((List.map (fun i => threeAtThreshold.m_data (slot threeAtThreshold.m_pos i)) [3, 2, 1]
        = [5000, 5000, 5000]) ∧ isOverload threeAtThreshold 5000 = true) ∧
    ((List.map (fun i => lastBelowThreshold.m_data (slot lastBelowThreshold.m_pos i)) [3, 2, 1]
        = [5000, 5000, 4999]) ∧ isOverload lastBelowThreshold 5000 = false) := by
  refine ⟨isOverload_iff, ?_, by decide!, by decide!⟩
  intro pos i
  rw [slot_val]
  omega

/-- Claim C3 fails on the code: the sum is accumulated in an `unsigned int`, so it wraps.
With 2-byte `unsigned int`, ten samples of 7000 have the true sum 70000 and mean 7000, but
the value stored at slot `m_pos mod 16` is `(70000 mod 65536) / 10 = 446`; with 4-byte
`unsigned int`, ten samples of 429496730 have mean 429496730, but 0 is stored. -/
theorem appendCurrentMeasurement_sum_wraps :
    (windowSum tenSamplesOf7000 / 10 = 7000 ∧
      (appendCurrentMeasurement 2 uint16 tenSamplesOf7000).m_data (slot tenSamplesOf7000.m_pos 0)
        = 446) ∧
    (windowSum tenSamplesWide / 10 = 429496730 ∧
      (appendCurrentMeasurement 4 uint32 tenSamplesWide).m_data (slot tenSamplesWide.m_pos 0) = 0) := by
  decide!

/-- Claim C4: after feeding any sequence of samples to `measure` on a freshly constructed
log, for every `k` from 1 to `min n 16` the window slot `(m_windowPos - k) mod 16` holds the
`k`-th most recent sample of the sequence. -/
theorem measure_window_holds_recent (sz : Nat) (ct : CounterType) (raw : PowerConsumptionLog)
    (samples : List Nat) (k : Nat) (hk1 : 1 ≤ k) (hk : k ≤ min samples.length 16) :
    samples[samples.length - k]?
      = some ((measureAll ct (construct sz raw) samples).m_window
          (slot (measureAll ct (construct sz raw) samples).m_windowPos k)) :=
  measureAll_recent ct (construct sz raw) samples k hk1 hk

/-- Witness for claim C4: after 17 samples, slot 0 holds the 17th sample (117), not the
first (101). -/
theorem measure_window_holds_recent_witness :
    1 ≤ 1 ∧ 1 ≤ min seventeenSamples.length 16 ∧
      seventeenSamples[seventeenSamples.length - 1]?
        = some ((measureAll uint16 (construct 2 (onesStorage 2)) seventeenSamples).m_window
            (slot (measureAll uint16 (construct 2 (onesStorage 2)) seventeenSamples).m_windowPos 1)) ∧
      slot (measureAll uint16 (construct 2 (onesStorage 2)) seventeenSamples).m_windowPos 1 = 0 ∧
      seventeenSamples[seventeenSamples.length - 1]? = some 117 :=
  ⟨by decide, by decide,
    measure_window_holds_recent 2 uint16 (onesStorage 2) seventeenSamples 1 (by decide) (by decide),
    by decide, by decide⟩

/-- Claim C5, as the specification states it, fails: with 16-bit counters the state reached
from a fresh log by 65535 calls of `measure` has `m_windowPos = 65535`, and one more
`measure` leaves the counter at 0, not at the old value plus one. -/
theorem measure_counter_wraps_counterexample :
    topOfRange.m_windowPos = 65535 ∧ (measure uint16 topOfRange 7).m_windowPos = 0 ∧
      (measure uint16 topOfRange 7).m_windowPos ≠ topOfRange.m_windowPos + 1 := by
  have h : topOfRange.m_windowPos = 65535 := by
    unfold topOfRange
    rw [measureAll_windowPos uint16 _ _ (by decide), List.length_replicate]
    decide
  have h0 : (measure uint16 topOfRange 7).m_windowPos = 0 := by
    rw [measure_windowPos, h]
    decide
  exact ⟨h, h0, by rw [h0, h]; decide⟩

/-- Claim C5, amended: for every state and every sample value, after `measure` the window
slot `m_windowPos mod 16` (old counter) holds the sample, and the counter is the old one
plus one reduced modulo the range of its type: the old one plus one below the top of the
range, 0 at the top; either way the next slot written is the one after the slot just
written.  `measure` is defined on every input. -/
theorem measure_writes_slot (ct : CounterType) (s : PowerConsumptionLog) (sample : Nat) :
    (measure ct s sample).m_window (slot s.m_windowPos 0) = sample ∧
      (slot s.m_windowPos 0).val = s.m_windowPos % 16 ∧
      (measure ct s sample).m_windowPos = (s.m_windowPos + 1) % ct.range ∧
      (s.m_windowPos + 1 < ct.range →
        (measure ct s sample).m_windowPos = s.m_windowPos + 1) ∧
      (s.m_windowPos + 1 = ct.range → (measure ct s sample).m_windowPos = 0) ∧
      slot (measure ct s sample).m_windowPos 0 = slot (s.m_windowPos + 1) 0 := by
  refine ⟨?_, slot_zero_val _, rfl, ?_, ?_, ?_⟩
  · simp [measure]
  · intro h
    rw [measure_windowPos, Nat.mod_eq_of_lt h]
  · intro h
    rw [measure_windowPos, h, Nat.mod_self]
  · rw [measure_windowPos, slot_range]

/-- Claim C6: after at least ten samples fed to a freshly constructed log, when the sum of
the last ten fits in an `unsigned int`, `appendCurrentMeasurement` makes the newest history
entry (offset 1 from the new `m_pos`) the truncated mean of the last ten samples. -/
theorem append_after_samples_is_mean (sz : Nat) (ct : CounterType) (raw : PowerConsumptionLog)
    (samples : List Nat) (hlen : 10 ≤ samples.length)
    (hfit : (samples.drop (samples.length - 10)).sum < uintRange sz) :
    (appendCurrentMeasurement sz ct (measureAll ct (construct sz raw) samples)).m_data
        (slot (appendCurrentMeasurement sz ct (measureAll ct (construct sz raw) samples)).m_pos 1)
      = (samples.drop (samples.length - 10)).sum / 10 := by
  rw [← windowSum_measureAll ct (construct sz raw) samples hlen] at hfit ⊢
  exact appendCurrentMeasurement_newest sz ct _ hfit

/-- Witness for claim C6: feeding 1, 2, ..., 10 yields 5. -/
theorem append_after_samples_is_mean_witness :
    10 ≤ [1, 2, 3, 4, 5, 6, 7, 8, 9, 10].length ∧
      (([1, 2, 3, 4, 5, 6, 7, 8, 9, 10] : List Nat).drop
        ([1, 2, 3, 4, 5, 6, 7, 8, 9, 10].length - 10)).sum < uintRange 2 ∧
      (appendCurrentMeasurement 2 uint16
          (measureAll uint16 (construct 2 (onesStorage 2)) [1, 2, 3, 4, 5, 6, 7, 8, 9, 10])).m_data
        (slot (appendCurrentMeasurement 2 uint16
          (measureAll uint16 (construct 2 (onesStorage 2)) [1, 2, 3, 4, 5, 6, 7, 8, 9, 10])).m_pos 1)
        = 5 :=
  ⟨by decide, by decide,
    append_after_samples_is_mean 2 uint16 (onesStorage 2) [1, 2, 3, 4, 5, 6, 7, 8, 9, 10]
      (by decide) (by decide)⟩

/-- Claim C7 fails on the code: each `memset(..., 0, 16)` clears 16 bytes, not 16 elements.
With 2-byte `unsigned int`, constructing over storage whose elements are all 65535 clears
slots 0..7 of both arrays and leaves slots 8..15 at 65535; with 4-byte `unsigned int` only
slots 0..3 are cleared.  The two counters are 0. -/
theorem construct_clears_sixteen_bytes :
    (List.ofFn (construct 2 (onesStorage 2)).m_data
        = [0, 0, 0, 0, 0, 0, 0, 0, 65535, 65535, 65535, 65535, 65535, 65535, 65535, 65535] ∧
      List.ofFn (construct 2 (onesStorage 2)).m_window
        = [0, 0, 0, 0, 0, 0, 0, 0, 65535, 65535, 65535, 65535, 65535, 65535, 65535, 65535] ∧
      (construct 2 (onesStorage 2)).m_pos = 0 ∧ (construct 2 (onesStorage 2)).m_windowPos = 0) ∧
    (List.ofFn (construct 4 (onesStorage 4)).m_data
        = [0, 0, 0, 0, 4294967295, 4294967295, 4294967295, 4294967295, 4294967295, 4294967295,
            4294967295, 4294967295, 4294967295, 4294967295, 4294967295, 4294967295]) := by
  decide!

/-- Claim C8 fails on the code, through the defect of claim C7: with 2-byte `unsigned int`
and construction over storage whose elements are all 65535, history slots 13, 14 and 15 are
not cleared, so `isOverload(5000)` is true right after construction (no commit at all), and
also after ten samples of 6000 and only two commits. -/
theorem isOverload_startup_uncleared :
    (commits [] < 3 ∧ isOverload (run 2 uint16 (construct 2 (onesStorage 2)) []) 5000 = true) ∧
    (commits twoCommits < 3 ∧
      isOverload (run 2 uint16 (construct 2 (onesStorage 2)) twoCommits) 5000 = true) := by
  decide!

/-- Claim C9: `isOverload` and `report` leave the state as they found it, so any number of
consecutive calls of either returns the same result each time. -/
theorem queries_are_pure (sz : Nat) (ct : CounterType) (s : PowerConsumptionLog) (T : Nat)
    (n : Nat) :
    (step sz ct s (Call.isOverload T)).2 = s ∧ (step sz ct s Call.report).2 = s ∧
      run sz ct s (List.replicate n (Call.isOverload T)) = s ∧
      trace sz ct s (List.replicate n (Call.isOverload T))
        = List.replicate n (Output.bool (isOverload s T)) ∧
      run sz ct s (List.replicate n Call.report) = s ∧
      trace sz ct s (List.replicate n Call.report) = List.replicate n (Output.line (report s)) := by
  refine ⟨rfl, rfl, ?_, ?_, ?_, ?_⟩ <;>
    induction n with
    | zero => rfl
    | succ m ih => simpa [List.replicate_succ, run, trace, step] using ih

/-- Claim C10: for every state the line produced by `report` starts with `POWER,`; the
remainder, split at the commas, is exactly ten non-empty fields made of decimal digits only;
the line does not end with a comma and contains no newline. -/
theorem report_line_format (s : PowerConsumptionLog) :
    "POWER,".toList <+: report s ∧
      (((report s).drop 6).splitOn ',').length = 10 ∧
      (∀ f ∈ ((report s).drop 6).splitOn ',', f ≠ [] ∧ ∀ c ∈ f, c.isDigit = true) ∧
      (report s).getLast? ≠ some ',' ∧
      Char.ofNat 10 ∉ report s := by
  have hfield : ∀ f ∈ List.map (fun i => decimal (s.m_data (slot s.m_pos i)))
      [1, 2, 3, 4, 5, 6, 7, 8, 9, 10], f ≠ [] ∧ ∀ c ∈ f, c.isDigit = true := by
    intro f hf
    obtain ⟨i, -, rfl⟩ := List.mem_map.1 hf
    exact ⟨decimal_ne_nil _, decimal_isDigit _⟩
  have hsplit : ((report s).drop 6).splitOn ','
      = List.map (fun i => decimal (s.m_data (slot s.m_pos i)))
          [1, 2, 3, 4, 5, 6, 7, 8, 9, 10] := by
    rw [report_eq, List.drop_left' (by rfl)]
    refine List.splitOn_intercalate _ ',' ?_ (by simp)
    intro f hf hmem
    have := (hfield f hf).2 ',' hmem
    revert this
    decide
  refine ⟨?_, ?_, ?_, ?_, ?_⟩
  · rw [report_eq]; exact List.prefix_append _ _
  · rw [hsplit]; rfl
  · rw [hsplit]; exact hfield
  · intro hlast
    obtain ⟨c, hc, hdig⟩ := report_last_isDigit s
    rw [hlast] at hc
    rw [← Option.some.inj hc] at hdig
    revert hdig
    decide
  · intro hmem
    rcases report_chars s _ hmem with h | h
    · revert h; decide
    · revert h; decide

/-- Claim C11: every index computed by the four operations, `m_windowPos & 0xF`,
`m_pos & 0xF` or the wrapped machine difference `(pos - i) & 0xF`, lies in 0..15 for every
counter value and offset, also when the counter is smaller than the offset (position 0 with
offsets 1..10 gives 15..6).  Hence on a memory image with two 16-element arrays, where an
access outside an array fails, `measure`, `appendCurrentMeasurement`, `isOverload` and
`report` all succeed, keep the arrays at 16 elements, and return what the operations of the
model return. -/
theorem operations_stay_in_bounds (sz : Nat) (ct : CounterType) (s : RawLog)
    (hd : s.m_data.length = 16) (hw : s.m_window.length = 16) :
    (∀ pos i, maskedIndex ct pos i < 16 ∧
      (maskedIndex ct pos i : Int) = ((pos : Int) - (i : Int)) % 16) ∧
    (∀ pos, pos &&& 0xF < 16) ∧
    List.map (fun i => maskedIndex ct 0 i) [1, 2, 3, 4, 5, 6, 7, 8, 9, 10]
      = [15, 14, 13, 12, 11, 10, 9, 8, 7, 6] ∧
    (∀ x, ∃ s2, measureChecked ct s x = some s2 ∧ s2.m_data = s.m_data ∧
      s2.m_window.length = 16 ∧ s2.toLog = measure ct s.toLog x) ∧
    (∃ s2, appendCurrentMeasurementChecked sz ct s = some s2 ∧ s2.m_window = s.m_window ∧
      s2.m_data.length = 16 ∧ s2.toLog = appendCurrentMeasurement sz ct s.toLog) ∧
    (∀ T, isOverloadChecked ct s T = some (isOverload s.toLog T)) ∧
    reportChecked ct s = some (report s.toLog) := by
  refine ⟨fun pos i => ⟨maskedIndex_lt ct pos i, ?_⟩, ?_, ?_,
    measureChecked_eq ct s hw, appendCurrentMeasurementChecked_eq sz ct s hd hw,
    isOverloadChecked_eq ct s hd, reportChecked_eq ct s hd⟩
  · rw [maskedIndex_eq_slot, slot_val]
    omega
  · intro pos
    rw [and_fifteen]
    exact Nat.mod_lt _ (by decide)
  · simp only [List.map_cons, List.map_nil, maskedIndex_eq_slot]
    decide

/-- Witness for claim C11: a memory image with counters at 0, where every backward offset
exceeds the counter, on a platform with 2-byte `unsigned int` and 16-bit counters. -/
theorem operations_stay_in_bounds_witness :
    rawStartup.m_data.length = 16 ∧ rawStartup.m_window.length = 16 ∧
      (∀ x, ∃ s2, measureChecked uint16 rawStartup x = some s2 ∧
        s2.m_data = rawStartup.m_data ∧ s2.m_window.length = 16 ∧
        s2.toLog = measure uint16 rawStartup.toLog x) ∧
      (∃ s2, appendCurrentMeasurementChecked 2 uint16 rawStartup = some s2 ∧
        s2.m_window = rawStartup.m_window ∧ s2.m_data.length = 16 ∧
        s2.toLog = appendCurrentMeasurement 2 uint16 rawStartup.toLog) ∧
      (∀ T, isOverloadChecked uint16 rawStartup T = some (isOverload rawStartup.toLog T)) ∧
      reportChecked uint16 rawStartup = some (report rawStartup.toLog) ∧
      isOverloadChecked uint16 rawStartup 14 = some true ∧
      (reportChecked uint16 rawStartup).map String.mk
        = some "POWER,16,15,14,13,12,11,10,9,8,7" :=
  ⟨by decide, by decide,
    (operations_stay_in_bounds 2 uint16 rawStartup (by decide) (by decide)).2.2.2.1,
    (operations_stay_in_bounds 2 uint16 rawStartup (by decide) (by decide)).2.2.2.2.1,
    (operations_stay_in_bounds 2 uint16 rawStartup (by decide) (by decide)).2.2.2.2.2.1,
    (operations_stay_in_bounds 2 uint16 rawStartup (by decide) (by decide)).2.2.2.2.2.2,
    by decide!, by decide!⟩

/-- Claim C12: `measure` changes only the window slot `m_windowPos mod 16` and the counter
`m_windowPos`; the other window slots, the whole history, `m_pos` and the stored threshold
are unchanged. -/
theorem measure_frame (ct : CounterType) (s : PowerConsumptionLog) (sample : Nat) :
    (∀ j : Fin 16, j ≠ slot s.m_windowPos 0 → (measure ct s sample).m_window j = s.m_window j) ∧
      (measure ct s sample).m_data = s.m_data ∧
      (measure ct s sample).m_pos = s.m_pos ∧
      (measure ct s sample).m_overloadThreshold = s.m_overloadThreshold := by
  refine ⟨fun j hj => ?_, rfl, rfl, rfl⟩
  simp [measure, Function.update_noteq hj]

/-- Claim C13: `appendCurrentMeasurement` changes only the history slot `m_pos mod 16` and
the counter `m_pos`; the whole window, `m_windowPos`, the other history slots and the stored
threshold are unchanged. -/
theorem appendCurrentMeasurement_frame (sz : Nat) (ct : CounterType) (s : PowerConsumptionLog) :
    (∀ j : Fin 16, j ≠ slot s.m_pos 0 →
        (appendCurrentMeasurement sz ct s).m_data j = s.m_data j) ∧
      (appendCurrentMeasurement sz ct s).m_window = s.m_window ∧
      (appendCurrentMeasurement sz ct s).m_windowPos = s.m_windowPos ∧
      (appendCurrentMeasurement sz ct s).m_overloadThreshold = s.m_overloadThreshold := by
  refine ⟨fun j hj => ?_, rfl, rfl, rfl⟩
  simp [appendCurrentMeasurement, Function.update_noteq hj]

/-- Claim C14: after any sequence of calls on a freshly constructed log that contains `n`
commits, for every `k` from 1 to `min n 16` the history slot `(m_pos - k) mod 16` holds the
value stored by the `k`-th most recent commit; the 17th commit writes the slot the 1st
wrote. -/
theorem history_holds_recent_commits (sz : Nat) (ct : CounterType) (raw : PowerConsumptionLog)
    (cs : List Call) (k : Nat) (hk1 : 1 ≤ k) (hk : k ≤ min (commits cs) 16) :
    (commitValues sz ct (construct sz raw) cs)[commits cs - k]?
        = some ((run sz ct (construct sz raw) cs).m_data
            (slot (run sz ct (construct sz raw) cs).m_pos k)) ∧
      slot ((construct sz raw).m_pos + 16) 0 = slot (construct sz raw).m_pos 0 :=
  ⟨run_history_recent sz ct (construct sz raw) cs k hk1 hk, slot_congr _ _ 0 (by omega)⟩

/-- Witness for claim C14: after 17 commits (storing 1, 2, ..., 10, 10, ..., 10) slot 0 holds
the value of the 17th commit, 10, and no longer the value of the 1st, 1. -/
theorem history_holds_recent_commits_witness :
    1 ≤ 1 ∧ 1 ≤ min (commits seventeenCommits) 16 ∧
      ((commitValues 2 uint16 (construct 2 zeroStorage) seventeenCommits)[
          commits seventeenCommits - 1]?
        = some ((run 2 uint16 (construct 2 zeroStorage) seventeenCommits).m_data
            (slot (run 2 uint16 (construct 2 zeroStorage) seventeenCommits).m_pos 1)) ∧
      slot ((construct 2 zeroStorage).m_pos + 16) 0
        = slot (construct 2 zeroStorage).m_pos 0) ∧
      commits seventeenCommits = 17 ∧
      (run 2 uint16 (construct 2 zeroStorage) seventeenCommits).m_data 0 = 10 ∧
      (commitValues 2 uint16 (construct 2 zeroStorage) seventeenCommits)[0]? = some 1 :=
  ⟨by decide, by decide,
    history_holds_recent_commits 2 uint16 zeroStorage seventeenCommits 1 (by decide) (by decide),
    by decide, by decide!, by decide!⟩

/-- Claim C15 fails on the code, through the defect of claim C7: with 2-byte `unsigned int`
and construction over storage whose elements all hold 1000, window slots 8..15 are not
cleared, so after the three samples 10, 20, 30 (sum 60, claimed result 6) the seven
unwritten slots read by the averaging loop contribute 7000 and 706 is stored. -/
theorem append_few_samples_reads_uncleared :
    ([10, 20, 30] : List Nat).length < 10 ∧ ([10, 20, 30] : List Nat).sum < uintRange 2 ∧
      ([10, 20, 30] : List Nat).sum / 10 = 6 ∧
      (appendCurrentMeasurement 2 uint16 (measureAll uint16 (construct 2 staleStorage) [10, 20, 30])).m_data
        (slot (appendCurrentMeasurement 2 uint16
          (measureAll uint16 (construct 2 staleStorage) [10, 20, 30])).m_pos 1) = 706 := by
  decide!

/-- Claim C16: the behaviour depends on the position counters only modulo 16, so it is
unaffected by the width at which the counters wrap.  For two states with equal buffers and
counters pairwise congruent modulo 16, `isOverload` and `report` return the same results,
and the same `measure` or `appendCurrentMeasurement` call, on counters of any two types,
leads to states that are again equal in the buffers and congruent in the counters; a state
whose counters have wrapped at `2 ^ w`, `w ≥ 4`, is congruent to the unwrapped one; an object
whose counters are reduced to `w` bits after every call, and an object with counters of
another type, produce the same outputs. -/
theorem behaviour_modulo_sixteen (sz : Nat) (ct ct2 : CounterType) (w : Nat)
    (s t : PowerConsumptionLog) (hw : 4 ≤ w) (h : Congruent s t) :
    (∀ T, isOverload s T = isOverload t T) ∧ report s = report t ∧
      (∀ x, Congruent (measure ct s x) (measure ct2 t x)) ∧
      Congruent (appendCurrentMeasurement sz ct s) (appendCurrentMeasurement sz ct2 t) ∧
      Congruent (wrapCounters w s) s ∧
      (∀ cs, traceWrapped sz ct w s cs = trace sz ct2 t cs) ∧
      (∀ cs, trace sz ct s cs = trace sz ct2 t cs) :=
  ⟨congruent_isOverload h, congruent_report h, congruent_measure ct ct2 h,
    congruent_append ct ct2 h sz, wrapCounters_congruent w hw s,
    fun cs => traceWrapped_eq sz ct ct2 w hw cs s t h,
    fun cs => trace_congr sz ct ct2 cs s t h⟩

/-- Witness for claim C16: the fresh state with 16-bit counters and the same buffers with
counters 16 and 65536 of 32 bits. -/
theorem behaviour_modulo_sixteen_witness :
    4 ≤ 16 ∧ Congruent farCounters (construct 2 zeroStorage) ∧
      ((∀ T, isOverload farCounters T = isOverload (construct 2 zeroStorage) T) ∧
        report farCounters = report (construct 2 zeroStorage) ∧
        (∀ x, Congruent (measure uint32 farCounters x)
          (measure uint16 (construct 2 zeroStorage) x)) ∧
        Congruent (appendCurrentMeasurement 2 uint32 farCounters)
          (appendCurrentMeasurement 2 uint16 (construct 2 zeroStorage)) ∧
        Congruent (wrapCounters 16 farCounters) farCounters ∧
        (∀ cs, traceWrapped 2 uint32 16 farCounters cs
          = trace 2 uint16 (construct 2 zeroStorage) cs) ∧
        (∀ cs, trace 2 uint32 farCounters cs = trace 2 uint16 (construct 2 zeroStorage) cs)) :=
  ⟨by decide, ⟨rfl, rfl, by decide, by decide⟩,
    behaviour_modulo_sixteen 2 uint32 uint16 16 farCounters (construct 2 zeroStorage)
      (by decide) ⟨rfl, rfl, by decide, by decide⟩⟩

/-- Claim C17: after a commit that stores a value below `T`, `isOverload(T)` is false at
once and after any further calls containing at most two commits; after three commits that
each store a value of at least `T`, with any calls other than commits in between and after,
`isOverload(T)` is true. -/
theorem overload_follows_last_three_commits (sz : Nat) (ct : CounterType)
    (s : PowerConsumptionLog) (T : Nat) :
    (appendCurrentMeasurement sz ct s).m_data (slot s.m_pos 0) = commitValue sz s ∧
    (∀ cs, commits cs ≤ 2 → commitValue sz s < T →
      isOverload (run sz ct (appendCurrentMeasurement sz ct s) cs) T = false) ∧
    (∀ cs1 cs2 cs3, commits cs1 = 0 → commits cs2 = 0 → commits cs3 = 0 →
      T ≤ commitValue sz s →
      T ≤ commitValue sz (run sz ct (appendCurrentMeasurement sz ct s) cs1) →
      T ≤ commitValue sz (run sz ct (appendCurrentMeasurement sz ct
            (run sz ct (appendCurrentMeasurement sz ct s) cs1)) cs2) →
      isOverload (run sz ct (appendCurrentMeasurement sz ct
          (run sz ct (appendCurrentMeasurement sz ct
            (run sz ct (appendCurrentMeasurement sz ct s) cs1)) cs2)) cs3) T = true) := by
  refine ⟨by rw [appendCurrentMeasurement_data_eq, Function.update_same], ?_, ?_⟩
  · intro cs hc hlt
    have h := isOverload_false_of_recent_below sz ct s (Call.appendCurrentMeasurement :: cs) T
      (commits cs + 1) (commitValue sz s) (by omega) (by omega) (by simp [commits])
      (by simp [commits, commitValues]) hlt
    exact h
  · intro cs1 cs2 cs3 h1 h2 h3 ht1 ht2 ht3
    have hn : commits (Call.appendCurrentMeasurement ::
        (cs1 ++ Call.appendCurrentMeasurement :: (cs2 ++ Call.appendCurrentMeasurement :: cs3)))
        = 3 := by
      simp [commits, commits_append, h1, h2, h3]
    have hv : commitValues sz ct s (Call.appendCurrentMeasurement ::
        (cs1 ++ Call.appendCurrentMeasurement :: (cs2 ++ Call.appendCurrentMeasurement :: cs3)))
        = [commitValue sz s, commitValue sz (run sz ct (appendCurrentMeasurement sz ct s) cs1),
            commitValue sz (run sz ct (appendCurrentMeasurement sz ct
              (run sz ct (appendCurrentMeasurement sz ct s) cs1)) cs2)] := by
      simp [commitValues_cons_commit, commitValues_append, commitValues_eq_nil, h1, h2, h3]
    have hr : run sz ct s (Call.appendCurrentMeasurement ::
        (cs1 ++ Call.appendCurrentMeasurement :: (cs2 ++ Call.appendCurrentMeasurement :: cs3)))
        = run sz ct (appendCurrentMeasurement sz ct
          (run sz ct (appendCurrentMeasurement sz ct
            (run sz ct (appendCurrentMeasurement sz ct s) cs1)) cs2)) cs3 := by
      simp [run, step, run_append]
    rw [← hr]
    exact isOverload_true_of_recent sz ct s _ T _ _ _ (by omega)
      (by rw [hn, hv]; rfl) (by rw [hn, hv]; rfl) (by rw [hn, hv]; rfl) ht3 ht2 ht1

/-- Witness for claim C17: a commit storing 4000 keeps `isOverload(5000)` false through ten
samples of 6000 and two further commits; three commits storing 5000 each, with a sample and
a query after each, make `isOverload(5000)` true. -/
theorem overload_follows_last_three_commits_witness :
    (commits twoCommits ≤ 2 ∧ commitValue 2 tenSamplesOf4000 < 5000 ∧
      isOverload (run 2 uint16 (appendCurrentMeasurement 2 uint16 tenSamplesOf4000) twoCommits) 5000
        = false) ∧
    (commits sampleAndQuery = 0 ∧ 5000 ≤ commitValue 2 tenSamplesOf5000 ∧
      5000 ≤ commitValue 2 (run 2 uint16 (appendCurrentMeasurement 2 uint16 tenSamplesOf5000)
        sampleAndQuery) ∧
      5000 ≤ commitValue 2 (run 2 uint16 (appendCurrentMeasurement 2 uint16
        (run 2 uint16 (appendCurrentMeasurement 2 uint16 tenSamplesOf5000) sampleAndQuery))
          sampleAndQuery) ∧
      isOverload (run 2 uint16 (appendCurrentMeasurement 2 uint16
          (run 2 uint16 (appendCurrentMeasurement 2 uint16
            (run 2 uint16 (appendCurrentMeasurement 2 uint16 tenSamplesOf5000) sampleAndQuery))
              sampleAndQuery)) sampleAndQuery) 5000 = true) :=
  ⟨⟨by decide, by decide!,
      (overload_follows_last_three_commits 2 uint16 tenSamplesOf4000 5000).2.1 twoCommits
        (by decide) (by decide!)⟩,
    ⟨by decide, by decide!, by decide!, by decide!,
      (overload_follows_last_three_commits 2 uint16 tenSamplesOf5000 5000).2.2
        sampleAndQuery sampleAndQuery sampleAndQuery (by decide) (by decide) (by decide)
        (by decide!) (by decide!) (by decide!)⟩⟩

/-- Claim C18: `isOverload` is antitone in its threshold: if it is true at `T` it is true at
every `T' ≤ T`; at threshold 0 it is true in every state, a freshly constructed one
included. -/
theorem isOverload_antitone :
    (∀ (s : PowerConsumptionLog) (T T' : Nat), T' ≤ T → isOverload s T = true →
      isOverload s T' = true) ∧
    (∀ s : PowerConsumptionLog, isOverload s 0 = true) ∧
    (∀ (sz : Nat) (raw : PowerConsumptionLog), isOverload (construct sz raw) 0 = true) := by
  refine ⟨?_, ?_, ?_⟩
  · intro s T T' hle ht
    rw [isOverload_iff] at ht ⊢
    omega
  · intro s
    rw [isOverload_iff]
    omega
  · intro sz raw
    rw [isOverload_iff]
    omega

/-- Witness for claim C18: the history ending 5000, 5000, 5000 is an overload at 5000,
hence at 4000. -/
theorem isOverload_antitone_witness :
    4000 ≤ 5000 ∧ isOverload threeAtThreshold 5000 = true ∧
      isOverload threeAtThreshold 4000 = true :=
  ⟨by decide, by decide!,
    isOverload_antitone.1 threeAtThreshold 5000 4000 (by decide) (by decide!)⟩

/-- Claim C19: when the sum of the ten most recent window samples fits in an
`unsigned int`, the value stored by `appendCurrentMeasurement` lies between the minimum and
the maximum of those samples; if moreover all ten are at least `T`, three commits in a row
store three equal values, found at offsets 1, 2, 3 afterwards, and make `isOverload(T)`
true. -/
theorem commit_between_min_and_max (sz : Nat) (ct : CounterType) (s : PowerConsumptionLog)
    (hfit : windowSum s < uintRange sz) :
    (appendCurrentMeasurement sz ct s).m_data (slot s.m_pos 0) = commitValue sz s ∧
    (∃ lo hi, (windowSamples s).min? = some lo ∧ (windowSamples s).max? = some hi ∧
      lo ≤ commitValue sz s ∧ commitValue sz s ≤ hi) ∧
    (∀ T, (∀ x ∈ windowSamples s, T ≤ x) →
      commitValue sz (appendCurrentMeasurement sz ct s) = commitValue sz s ∧
      commitValue sz (appendCurrentMeasurement sz ct (appendCurrentMeasurement sz ct s))
        = commitValue sz s ∧
      (∀ k, 1 ≤ k → k ≤ 3 →
        (appendCurrentMeasurement sz ct (appendCurrentMeasurement sz ct
            (appendCurrentMeasurement sz ct s))).m_data
          (slot (appendCurrentMeasurement sz ct (appendCurrentMeasurement sz ct
            (appendCurrentMeasurement sz ct s))).m_pos k) = commitValue sz s) ∧
      isOverload (appendCurrentMeasurement sz ct (appendCurrentMeasurement sz ct
        (appendCurrentMeasurement sz ct s))) T = true) := by
  refine ⟨by rw [appendCurrentMeasurement_data_eq, Function.update_same], ?_, ?_⟩
  · have hne : windowSamples s ≠ [] := by
      intro h
      have := windowSamples_length s
      rw [h] at this
      simp at this
    obtain ⟨lo, hlo⟩ : ∃ lo, (windowSamples s).min? = some lo := by
      cases h : (windowSamples s).min? with
      | none => exact absurd (List.min?_eq_none_iff.1 h) hne
      | some lo => exact ⟨lo, rfl⟩
    obtain ⟨hi, hhi⟩ : ∃ hi, (windowSamples s).max? = some hi := by
      cases h : (windowSamples s).max? with
      | none => exact absurd (List.max?_eq_none_iff.1 h) hne
      | some hi => exact ⟨hi, rfl⟩
    exact ⟨lo, hi, hlo, hhi,
      commitValue_ge sz s hfit lo (List.min?_eq_some_iff'.1 hlo).2,
      commitValue_le sz s hfit hi (List.max?_eq_some_iff'.1 hhi).2⟩
  · intro T hT
    have hv := commitValue_ge sz s hfit T hT
    have hslots : ∀ k, 1 ≤ k → k ≤ 3 →
        (appendCurrentMeasurement sz ct (appendCurrentMeasurement sz ct
            (appendCurrentMeasurement sz ct s))).m_data
          (slot (appendCurrentMeasurement sz ct (appendCurrentMeasurement sz ct
            (appendCurrentMeasurement sz ct s))).m_pos k) = commitValue sz s := by
      intro k hk1 hk3
      have h := run_history_recent sz ct s [Call.appendCurrentMeasurement,
        Call.appendCurrentMeasurement, Call.appendCurrentMeasurement] k hk1
        (by simp only [commits, Nat.le_min]; omega)
      have hrun : run sz ct s [Call.appendCurrentMeasurement,
          Call.appendCurrentMeasurement, Call.appendCurrentMeasurement]
          = appendCurrentMeasurement sz ct (appendCurrentMeasurement sz ct
              (appendCurrentMeasurement sz ct s)) := rfl
      have hvals : commitValues sz ct s [Call.appendCurrentMeasurement,
          Call.appendCurrentMeasurement, Call.appendCurrentMeasurement]
          = [commitValue sz s, commitValue sz s, commitValue sz s] := rfl
      rw [hrun, hvals] at h
      obtain rfl | rfl | rfl : k = 1 ∨ k = 2 ∨ k = 3 := by omega
      all_goals
        simp only [commits] at h
        exact (Option.some.inj h).symm
    refine ⟨rfl, rfl, hslots, ?_⟩
    rw [isOverload_iff, hslots 1 (by omega) (by omega), hslots 2 (by omega) (by omega),
      hslots 3 (by omega) (by omega)]
    exact ⟨hv, hv, hv⟩

/-- Witness for claim C19: ten samples 5000, 5100, ..., 5900 have sum 54500, which fits in
16 bits; the stored mean 5450 lies between 5000 and 5900. -/
theorem commit_between_min_and_max_witness :
    windowSum tenRisingSamples < uintRange 2 ∧
      ((appendCurrentMeasurement 2 uint16 tenRisingSamples).m_data (slot tenRisingSamples.m_pos 0)
          = commitValue 2 tenRisingSamples ∧
        (∃ lo hi, (windowSamples tenRisingSamples).min? = some lo ∧
          (windowSamples tenRisingSamples).max? = some hi ∧
          lo ≤ commitValue 2 tenRisingSamples ∧ commitValue 2 tenRisingSamples ≤ hi)) ∧
      commitValue 2 tenRisingSamples = 5450 ∧
      (windowSamples tenRisingSamples).min? = some 5000 ∧
      (windowSamples tenRisingSamples).max? = some 5900 :=
  ⟨by decide!,
    ⟨(commit_between_min_and_max 2 uint16 tenRisingSamples (by decide!)).1,
      (commit_between_min_and_max 2 uint16 tenRisingSamples (by decide!)).2.1⟩,
    by decide!, by decide!, by decide!⟩

end PowerLog
